import Mathlib

/-!
Verification of the kunyu scripting-language front end and evaluator.

This file is a shallow embedding of the C sources:
  * `src/ast.c`     — AST node constructors and the recursive-descent parser,
  * the interpreter translation unit — tree-walking evaluator over a scope chain,
  * the object-system translation unit — reference-counted runtime objects.

Modelling conventions:
  * C `double` values are modelled as exact rationals (`ℚ`).  The arithmetic the
    claims exercise stays inside the exactly representable fragment.
  * Machine `int` casts are modelled with truncation toward zero and an explicit
    32-bit range check; a source operation that is undefined behaviour in C
    (`%` with a zero int divisor, out-of-range double→int cast) makes the
    evaluator return no value and sets the `outOfModel` marker of the state.
  * Token streams are modelled as the list of tokens not yet consumed; the C
    parser keeps an index into a fixed array, which is observably the same.
  * Allocation failures (`malloc` returning NULL) are assumed not to happen.
  * The C code drives recursion through mutually recursive functions; here a
    function pack (`ParseFns`, `InterpFns`) is built by structural recursion on
    a fuel counter so that every definition reduces in the kernel.  Loops
    (`while` in C) consume one fuel per iteration.
-/

set_option maxRecDepth 20000

namespace Kunyu

/-- Error codes, from the `KunyuErrorCode` enum. -/
inductive ErrCode where
  | ok
  | lexerError
  | parserError
  | compilerError
  | runtimeError
  | ioError
  | memoryError
deriving DecidableEq, Repr

/-- The `KunyuError` struct: code, message, and source position. -/
structure KunyuError where
  code : ErrCode
  message : String
  line : Int
  column : Int
deriving DecidableEq, Repr

/-- A fresh error slot, as zeroed by `parser_init` / `interpreter_init`. -/
def noError : KunyuError :=
  { code := .ok, message := "", line := 0, column := 0 }

/-- Token kinds, from the `KunyuTokenType` enum. -/
inductive TokType where
  | eof
  | identifier
  | keyword
  | string
  | number
  | operator
  | delimiter
  | newline
deriving DecidableEq, Repr

/-- The `Token` struct. -/
structure Token where
  type : TokType
  value : String
  line : Int
  column : Int
deriving DecidableEq, Repr

/-- Binary operators, from the `BinaryOpType` enum. -/
inductive BinOp where
  | add | sub | mul | div | mod
  | eq | ne | lt | le | gt | ge
  | and | or
deriving DecidableEq, Repr

/-- Unary operators, from the `UnaryOpType` enum. -/
inductive UnOp where
  | neg | not
deriving DecidableEq, Repr

/-- Expression nodes of the AST (the `Expr*` structs of `ast.h`).
`lit` keeps the token type and raw text exactly as `create_literal` does. -/
inductive Expr where
  | lit (tokenType : TokType) (value : String)
  | var (name : String)
  | binary (left : Expr) (op : BinOp) (right : Expr)
  | unary (op : UnOp) (operand : Expr)
  | call (name : String) (args : List Expr)
  | grouping (e : Expr)
  | assign (name : String) (value : Expr)
deriving Repr

/-- Statement nodes of the AST (the `Stmt*` structs of `ast.h`). -/
inductive Stmt where
  | exprStmt (e : Expr)
  | varDecl (name : String) (initializer : Expr) (isConstant : Bool)
  | block (stmts : List Stmt)
  | ifStmt (condition : Expr) (thenBranch : Stmt) (elseBranch : Option Stmt)
  | loop (condition : Expr) (body : Stmt)
  | funcDecl (name : String) (params : List String) (body : Stmt)
  | ret (value : Expr)
  | print (value : Expr)
deriving Repr

/-- A program is the ordered list of top-level statements of the root node. -/
abbrev Program := List Stmt

/-! ### Parser state and primitive cursor operations (`ast.c`, parser part) -/

/-- Parser context: the unconsumed suffix of the token array plus the single
mutable error slot (`ParserContext`). -/
structure PState where
  toks : List Token
  perror : KunyuError
deriving Repr

/-- `current_token`: the token at the cursor, `NULL` at the end. -/
def current_token (s : PState) : Option Token :=
  s.toks.head?

/-- `peek_token`: one token of extra lookahead. -/
def peek_token (s : PState) : Option Token :=
  s.toks[1]?

/-- `advance`: return the current token and move past it. -/
def advanceP (s : PState) : Option Token × PState :=
  match s.toks with
  | [] => (none, s)
  | t :: rest => (some t, { s with toks := rest })

/-- `check`: is the current token of the given type? -/
def check (type : TokType) (s : PState) : Bool :=
  match current_token s with
  | none => false
  | some t => t.type = type

/-- `check_keyword`: is the current token the given keyword? -/
def check_keyword (kw : String) (s : PState) : Bool :=
  match current_token s with
  | none => false
  | some t => t.type = .keyword && t.value = kw

/-- `match` (C): consume the current token when it has the given type. -/
def match_type (type : TokType) (s : PState) : Bool × PState :=
  if check type s then
    ((advanceP s).1.isSome, (advanceP s).2)
  else
    (false, s)

/-- `match_keyword`. -/
def match_keyword (kw : String) (s : PState) : Bool × PState :=
  if check_keyword kw s then
    (true, (advanceP s).2)
  else
    (false, s)

/-- Record a parser error whose position is taken from the current token
(0 when at the end), as `expect` and `expect_keyword` do. -/
def set_parser_error_at (msg : String) (s : PState) : PState :=
  { s with perror :=
      { code := .parserError
        message := msg
        line := (current_token s).elim 0 (·.line)
        column := (current_token s).elim 0 (·.column) } }

/-- Record a parser error at an explicit position. -/
def set_parser_error_pos (msg : String) (line column : Int) (s : PState) : PState :=
  { s with perror := { code := .parserError, message := msg, line := line, column := column } }

/-- Record a parser error that sets only code and message (the sites that call
`snprintf` without touching `line`/`column`). -/
def set_parser_error_msg (msg : String) (s : PState) : PState :=
  { s with perror := { s.perror with code := .parserError, message := msg } }

/-- `expect`: consume a token of the given type or record an error. -/
def expect (type : TokType) (msg : String) (s : PState) : Option Token × PState :=
  if check type s then advanceP s
  else (none, set_parser_error_at msg s)

/-- `expect_keyword`. -/
def expect_keyword (kw : String) (msg : String) (s : PState) : Option Token × PState :=
  if check_keyword kw s then advanceP s
  else (none, set_parser_error_at msg s)

/-- Token-list form of the newline-skipping loops. -/
def skip_newlines_list : List Token → List Token
  | [] => []
  | t :: rest => if t.type = .newline then skip_newlines_list rest else t :: rest

/-- The newline-skipping loops `while (match(KUNYU_TOKEN_NEWLINE)) {}`. -/
def skip_newlines (s : PState) : PState :=
  { s with toks := skip_newlines_list s.toks }

/-- Operator-spelling table of `parse_binary_expr`. -/
def bin_op_of_string (v : String) : Option BinOp :=
  if v = "+" then some .add
  else if v = "-" then some .sub
  else if v = "*" then some .mul
  else if v = "/" then some .div
  else if v = "%" then some .mod
  else if v = "==" then some .eq
  else if v = "!=" then some .ne
  else if v = "<" then some .lt
  else if v = "<=" then some .le
  else if v = ">" then some .gt
  else if v = ">=" then some .ge
  else if v = "&&" then some .and
  else if v = "||" then some .or
  else none

/-- The pack of mutually recursive parser entry points.  `pExpr`, `pStmt`,
`pIf` and `pBin` stand for `parse_expression`, `parse_statement`,
`parse_if_stmt` and `parse_binary_expr`; one pack level is consumed per
nested recursive call. -/
structure ParseFns where
  pExpr : PState → Option Expr × PState
  pStmt : PState → Option Stmt × PState
  pIf : PState → Option Stmt × PState
  pBin : Expr → PState → Option Expr × PState

/-- `parse_function_call`'s argument loop; the fuel bounds the number of
iterations of the C `while (true)` loop. -/
def parse_call_args (I : ParseFns) : Nat → List Expr → PState → Option (List Expr) × PState
  | 0, _, s => (none, s)
  | fuel + 1, acc, s =>
    match I.pExpr s with
    | (none, s1) => (none, s1)
    | (some arg, s1) =>
      let acc1 := acc ++ [arg]
      if check .delimiter s1 ∧ (current_token s1).elim false (·.value = ")") then
        (some acc1, s1)
      else
        match expect .delimiter ("预期','分隔参数") s1 with
        | (none, s2) => (none, s2)
        | (some comma, s2) =>
          if comma.value = "," then parse_call_args I fuel acc1 s2
          else (none, s2)

/-- `parse_function_call`. -/
def parse_function_call (I : ParseFns) (name : String) (s : PState) : Option Expr × PState :=
  match expect .delimiter ("预期'('开始函数调用") s with
  | (none, s1) => (none, s1)
  | (some lparen, s1) =>
    if lparen.value ≠ "(" then (none, s1)
    else
      let argsRes :=
        if check .delimiter s1 ∧ (current_token s1).elim false (·.value = ")") then
          ((some ([] : List Expr)), s1)
        else
          parse_call_args I (s1.toks.length + 1) [] s1
      match argsRes with
      | (none, s2) => (none, s2)
      | (some args, s2) =>
        match expect .delimiter ("预期')'结束参数列表") s2 with
        | (none, s3) => (none, s3)
        | (some rparen, s3) =>
          if rparen.value ≠ ")" then (none, s3)
          else (some (.call name args), s3)

/-- `parse_primary`. -/
def parse_primary (I : ParseFns) (s : PState) : Option Expr × PState :=
  match current_token s with
  | none =>
    (none, set_parser_error_msg ("预期表达式但遇到了文件结束") s)
  | some token =>
    if token.type = .number ∨ token.type = .string then
      (some (.lit token.type token.value), (advanceP s).2)
    else if token.type = .identifier then
      let s1 := (advanceP s).2
      if check .delimiter s1 ∧ (current_token s1).elim false (·.value = "(") then
        parse_function_call I token.value s1
      else
        (some (.var token.value), s1)
    else if token.type = .delimiter ∧ token.value = "(" then
      let s1 := (advanceP s).2
      match I.pExpr s1 with
      | (none, s2) => (none, s2)
      | (some e, s2) =>
        match expect .delimiter ("预期')'来闭合分组表达式") s2 with
        | (none, s3) => (none, s3)
        | (some t, s3) =>
          if t.value ≠ ")" then (none, s3)
          else (some (.grouping e), s3)
    else
      (none, set_parser_error_pos ("预期表达式但遇到了: " ++ token.value) token.line token.column s)

/-- `parse_binary_expr`: one operator and one `parse_primary` on its right;
the node built so far is the left operand, and a following operator token
re-enters through `pBin`.  The function is only reached with an operator
token under the cursor. -/
def parse_binary_expr (I : ParseFns) (left : Expr) (s : PState) : Option Expr × PState :=
  match advanceP s with
  | (none, s1) => (none, s1)
  | (some op, s1) =>
    match bin_op_of_string op.value with
    | none =>
      (none, set_parser_error_pos ("不支持的运算符: " ++ op.value) op.line op.column s1)
    | some opType =>
      match parse_primary I s1 with
      | (none, s2) => (none, s2)
      | (some right, s2) =>
        let binary := Expr.binary left opType right
        match current_token s2 with
        | some next =>
          if next.type = .operator then I.pBin binary s2
          else (some binary, s2)
        | none => (some binary, s2)

/-- `parse_expression`: assignment detection by one extra token of lookahead,
otherwise a primary optionally followed by a binary chain. -/
def parse_expression (I : ParseFns) (s : PState) : Option Expr × PState :=
  let assignCase :=
    if check .identifier s then
      match current_token s, peek_token s with
      | some name, some next =>
        if next.type = .operator ∧ next.value = "=" then some name else none
      | _, _ => none
    else none
  match assignCase with
  | some name =>
    let s1 := (advanceP (advanceP s).2).2
    match I.pExpr s1 with
    | (none, s2) => (none, s2)
    | (some value, s2) => (some (.assign name.value value), s2)
  | none =>
    match parse_primary I s with
    | (none, s1) => (none, s1)
    | (some e, s1) =>
      match current_token s1 with
      | some next =>
        if next.type = .operator then parse_binary_expr I e s1
        else (some e, s1)
      | none => (some e, s1)

/-- `parse_print_stmt`. -/
def parse_print_stmt (I : ParseFns) (s : PState) : Option Stmt × PState :=
  match expect_keyword ("输出") ("预期'输出'关键字") s with
  | (none, s1) => (none, s1)
  | (some _, s1) =>
    match I.pExpr s1 with
    | (none, s2) => (none, s2)
    | (some e, s2) =>
      match expect .delimiter ("预期';'作为输出语句的结束") s2 with
      | (none, s3) => (none, s3)
      | (some semicolon, s3) =>
        if semicolon.value ≠ ";" then (none, s3)
        else (some (.print e), s3)

/-- `parse_var_decl`. -/
def parse_var_decl (I : ParseFns) (s : PState) : Option Stmt × PState :=
  let isConstant := check_keyword ("常量") s
  let s1 := (advanceP s).2
  match expect .identifier ("预期变量名标识符") s1 with
  | (none, s2) => (none, s2)
  | (some name, s2) =>
    match expect .operator ("预期'='赋值运算符") s2 with
    | (none, s3) => (none, s3)
    | (some equals, s3) =>
      if equals.value ≠ "=" then (none, s3)
      else
        match I.pExpr s3 with
        | (none, s4) => (none, s4)
        | (some initializer, s4) =>
          match expect .delimiter ("预期';'作为变量声明的结束") s4 with
          | (none, s5) => (none, s5)
          | (some semicolon, s5) =>
            if semicolon.value ≠ ";" then (none, s5)
            else (some (.varDecl name.value initializer isConstant), s5)

/-- `parse_block`'s statement loop; the fuel bounds the iterations. -/
def parse_block_stmts (I : ParseFns) : Nat → List Stmt → PState → Option (List Stmt) × PState
  | 0, _, s => (none, s)
  | fuel + 1, acc, s =>
    if check .delimiter s ∧ (current_token s).elim false (·.value = "\x7d") then
      (some acc, s)
    else
      match I.pStmt s with
      | (none, s1) => (none, s1)
      | (some stmt, s1) =>
        let acc1 := acc ++ [stmt]
        let s2 := skip_newlines s1
        if check .eof s2 then
          (none, set_parser_error_msg ("代码块未闭合，预期'\x7d'") s2)
        else
          parse_block_stmts I fuel acc1 s2

/-- `parse_block`: statements until the matching `}`. -/
def parse_block (I : ParseFns) (s : PState) : Option Stmt × PState :=
  let s0 := skip_newlines s
  match parse_block_stmts I (s0.toks.length + 1) [] s0 with
  | (none, s1) => (none, s1)
  | (some stmts, s1) =>
    match expect .delimiter ("预期'\x7d'结束代码块") s1 with
    | (none, s2) => (none, s2)
    | (some rbrace, s2) =>
      if rbrace.value ≠ "\x7d" then (none, s2)
      else (some (.block stmts), s2)

/-- `parse_if_stmt`; the `否则如果` branch re-enters through `pIf`. -/
def parse_if_stmt (I : ParseFns) (s : PState) : Option Stmt × PState :=
  match expect_keyword ("如果") ("预期'如果'关键字") s with
  | (none, s1) => (none, s1)
  | (some _, s1) =>
    match expect .delimiter ("预期'('开始条件表达式") s1 with
    | (none, s2) => (none, s2)
    | (some lparen, s2) =>
      if lparen.value ≠ "(" then (none, s2)
      else
        match I.pExpr s2 with
        | (none, s3) => (none, s3)
        | (some condition, s3) =>
          match expect .delimiter ("预期')'结束条件表达式") s3 with
          | (none, s4) => (none, s4)
          | (some rparen, s4) =>
            if rparen.value ≠ ")" then (none, s4)
            else
              match expect .delimiter ("预期'\x7b'开始条件分支代码块") s4 with
              | (none, s5) => (none, s5)
              | (some lbrace, s5) =>
                if lbrace.value ≠ "\x7b" then (none, s5)
                else
                  match parse_block I s5 with
                  | (none, s6) => (none, s6)
                  | (some thenBranch, s6) =>
                    match match_keyword ("否则") s6 with
                    | (false, s7) => (some (.ifStmt condition thenBranch none), s7)
                    | (true, s7) =>
                      if check_keyword ("如果") s7 then
                        match I.pIf s7 with
                        | (none, s8) => (none, s8)
                        | (some elseBranch, s8) =>
                          (some (.ifStmt condition thenBranch (some elseBranch)), s8)
                      else
                        match expect .delimiter ("预期'\x7b'开始否则分支代码块") s7 with
                        | (none, s8) => (none, s8)
                        | (some elseLbrace, s8) =>
                          if elseLbrace.value ≠ "\x7b" then (none, s8)
                          else
                            match parse_block I s8 with
                            | (none, s9) => (none, s9)
                            | (some elseBranch, s9) =>
                              (some (.ifStmt condition thenBranch (some elseBranch)), s9)

/-- `parse_loop_stmt`. -/
def parse_loop_stmt (I : ParseFns) (s : PState) : Option Stmt × PState :=
  match expect_keyword ("循环") ("预期'循环'关键字") s with
  | (none, s1) => (none, s1)
  | (some _, s1) =>
    match expect .delimiter ("预期'('开始循环条件") s1 with
    | (none, s2) => (none, s2)
    | (some lparen, s2) =>
      if lparen.value ≠ "(" then (none, s2)
      else
        match I.pExpr s2 with
        | (none, s3) => (none, s3)
        | (some condition, s3) =>
          match expect .delimiter ("预期')'结束循环条件") s3 with
          | (none, s4) => (none, s4)
          | (some rparen, s4) =>
            if rparen.value ≠ ")" then (none, s4)
            else
              match expect .delimiter ("预期'\x7b'开始循环体") s4 with
              | (none, s5) => (none, s5)
              | (some lbrace, s5) =>
                if lbrace.value ≠ "\x7b" then (none, s5)
                else
                  match parse_block I s5 with
                  | (none, s6) => (none, s6)
                  | (some body, s6) => (some (.loop condition body), s6)

/-- `parse_function_decl`'s parameter-name loop. -/
def parse_decl_params (I : ParseFns) : Nat → List String → PState → Option (List String) × PState
  | 0, _, s => (none, s)
  | fuel + 1, acc, s =>
    match expect .identifier ("预期参数名标识符") s with
    | (none, s1) => (none, s1)
    | (some param, s1) =>
      let acc1 := acc ++ [param.value]
      if check .delimiter s1 ∧ (current_token s1).elim false (·.value = ")") then
        (some acc1, s1)
      else
        match expect .delimiter ("预期','分隔参数") s1 with
        | (none, s2) => (none, s2)
        | (some comma, s2) =>
          if comma.value = "," then parse_decl_params I fuel acc1 s2
          else (none, s2)

/-- `parse_function_decl`. -/
def parse_function_decl (I : ParseFns) (s : PState) : Option Stmt × PState :=
  match expect_keyword ("函数") ("预期'函数'关键字") s with
  | (none, s1) => (none, s1)
  | (some _, s1) =>
    match expect .identifier ("预期函数名标识符") s1 with
    | (none, s2) => (none, s2)
    | (some name, s2) =>
      match expect .delimiter ("预期'('开始参数列表") s2 with
      | (none, s3) => (none, s3)
      | (some lparen, s3) =>
        if lparen.value ≠ "(" then (none, s3)
        else
          let paramsRes :=
            if check .delimiter s3 ∧ (current_token s3).elim false (·.value = ")") then
              ((some ([] : List String)), s3)
            else
              parse_decl_params I (s3.toks.length + 1) [] s3
          match paramsRes with
          | (none, s4) => (none, s4)
          | (some params, s4) =>
            match expect .delimiter ("预期')'结束参数列表") s4 with
            | (none, s5) => (none, s5)
            | (some rparen, s5) =>
              if rparen.value ≠ ")" then (none, s5)
              else
                match expect .delimiter ("预期'\x7b'开始函数体") s5 with
                | (none, s6) => (none, s6)
                | (some lbrace, s6) =>
                  if lbrace.value ≠ "\x7b" then (none, s6)
                  else
                    match parse_block I s6 with
                    | (none, s7) => (none, s7)
                    | (some body, s7) =>
                      (some (.funcDecl name.value params body), s7)

/-- `parse_return_stmt`. -/
def parse_return_stmt (I : ParseFns) (s : PState) : Option Stmt × PState :=
  match expect_keyword ("返回") ("预期'返回'关键字") s with
  | (none, s1) => (none, s1)
  | (some _, s1) =>
    match I.pExpr s1 with
    | (none, s2) => (none, s2)
    | (some value, s2) =>
      match expect .delimiter ("预期';'作为返回语句的结束") s2 with
      | (none, s3) => (none, s3)
      | (some semicolon, s3) =>
        if semicolon.value ≠ ";" then (none, s3)
        else (some (.ret value), s3)

/-- `parse_statement`: keyword dispatch, then the expression-statement path.
That path consumes a delimiter token with `match` and then compares the token
*after* it against `";"` before advancing once more — exactly as the source
does. -/
def parse_statement (I : ParseFns) (s : PState) : Option Stmt × PState :=
  if check_keyword ("输出") s then parse_print_stmt I s
  else if check_keyword ("变量") s ∨ check_keyword ("常量") s then parse_var_decl I s
  else if check_keyword ("如果") s then parse_if_stmt I s
  else if check_keyword ("循环") s then parse_loop_stmt I s
  else if check_keyword ("函数") s then parse_function_decl I s
  else if check_keyword ("返回") s then parse_return_stmt I s
  else
    match I.pExpr s with
    | (none, s1) => (none, s1)
    | (some e, s1) =>
      match match_type .delimiter s1 with
      | (false, s2) =>
        (none, set_parser_error_at ("预期';'作为表达式语句的结束") s2)
      | (true, s2) =>
        if (current_token s2).elim false (·.value = ";") then
          (some (.exprStmt e), (advanceP s2).2)
        else
          (none, set_parser_error_at ("预期';'作为表达式语句的结束") s2)

/-- One level of the parser pack. -/
def parse_step (I : ParseFns) : ParseFns :=
  { pExpr := parse_expression I
    pStmt := parse_statement I
    pIf := parse_if_stmt I
    pBin := parse_binary_expr I }

/-- Base pack: recursion budget exhausted; every entry gives up without
touching the error slot (never reached with adequate fuel). -/
def parse_bottom : ParseFns :=
  { pExpr := fun s => (none, s)
    pStmt := fun s => (none, s)
    pIf := fun s => (none, s)
    pBin := fun _ s => (none, s) }

/-- The parser pack at a given recursion depth. -/
def parse_at : Nat → ParseFns
  | 0 => parse_bottom
  | fuel + 1 => parse_step (parse_at fuel)

/-- `parse_program`'s top-level statement loop, including the quirk that a
`NULL` statement without a recorded error is skipped silently. -/
def parse_program_stmts (I : ParseFns) : Nat → List Stmt → PState → Option (List Stmt) × PState
  | 0, _, s => (none, s)
  | fuel + 1, acc, s =>
    if s.toks.isEmpty ∨ check .eof s then (some acc, s)
    else
      match I.pStmt s with
      | (some stmt, s1) =>
        parse_program_stmts I fuel (acc ++ [stmt]) (skip_newlines s1)
      | (none, s1) =>
        if s1.perror.code ≠ .ok then (none, s1)
        else parse_program_stmts I fuel acc (skip_newlines s1)

/-- `parse_program`. -/
def parse_program (I : ParseFns) (s : PState) : Option Program × PState :=
  let s0 := skip_newlines s
  parse_program_stmts I (s0.toks.length + 1) [] s0

/-- `parser_parse`: initialize the parser context on the token array and parse
a program.  `fuel` bounds the nesting depth of the recursive descent. -/
def parser_parse (fuel : Nat) (tokens : List Token) : Option Program × PState :=
  if tokens.isEmpty then (none, { toks := [], perror := noError })
  else parse_program (parse_at fuel) { toks := tokens, perror := noError }

/-! ### Runtime values and numeric helpers (object system + interpreter) -/

/-- Runtime values reaching the evaluator's pure fragment.  `num` models
`PyNumberObject` (C `double`, here an exact rational), `str` models
`PyStringObject`.  Lists and dictionaries only arise through builtins, which
mutate the shared reference-counted heap; that heap is modelled separately
below and the evaluator marks builtin calls as out of model. -/
inductive Value where
  | num (v : ℚ)
  | str (s : String)
deriving DecidableEq, Repr

/-- Truncation toward zero, the C `(int)` conversion of a `double` value. -/
def rat_trunc (q : ℚ) : Int :=
  Int.tdiv q.num (q.den : Int)

/-- Floor of a rational. -/
def rat_floor (q : ℚ) : Int :=
  Int.fdiv q.num (q.den : Int)

/-- C `double`→`int` conversion: truncation, undefined (none) outside the
32-bit `int` range. -/
def c_int_cast (q : ℚ) : Option Int :=
  let t := rat_trunc q
  if -(2 ^ 31) ≤ t ∧ t ≤ 2 ^ 31 - 1 then some t else none

/-- One decimal digit as a character. -/
def digit_char : Nat → Char
  | 0 => '0' | 1 => '1' | 2 => '2' | 3 => '3' | 4 => '4'
  | 5 => '5' | 6 => '6' | 7 => '7' | 8 => '8' | _ => '9'

/-- Decimal digits of a natural number, most significant first. -/
def nat_digits_aux : Nat → Nat → List Char
  | 0, _ => []
  | fuel + 1, n =>
    if n < 10 then [digit_char n]
    else nat_digits_aux fuel (n / 10) ++ [digit_char (n % 10)]

/-- Decimal representation of a natural number. -/
def nat_digits (n : Nat) : List Char :=
  nat_digits_aux (n + 1) n

/-- `printf("%.0f", v)` on an integral double value. -/
def int_render (i : Int) : String :=
  if i < 0 then "-" ++ String.mk (nat_digits i.natAbs)
  else String.mk (nat_digits i.natAbs)

/-- Integer powers of ten as rationals. -/
def q_pow10 (k : Int) : ℚ :=
  if 0 ≤ k then ((10 ^ k.toNat : ℕ) : ℚ)
  else 1 / ((10 ^ (-k).toNat : ℕ) : ℚ)

/-- Round to the nearest integer, ties to even (the rounding `printf` applies
to the exact value under the default rounding mode). -/
def round_half_even (x : ℚ) : Int :=
  let n := rat_floor x
  let r := x - (n : ℚ)
  if r > 1 / 2 then n + 1
  else if r < 1 / 2 then n
  else if n % 2 = 0 then n else n + 1

/-- Decimal exponent `e` with `10^e ≤ q < 10^(e+1)`, for `q > 0`. -/
def dec_exponent (q : ℚ) : Int :=
  if 1 ≤ q then
    (nat_digits (rat_trunc q).toNat).length - 1
  else
    -(((nat_digits ((-(rat_floor (-(1/q)))) - 1).toNat).length : Int))

/-- Drop trailing `'0'` characters. -/
def strip_zeros (cs : List Char) : List Char :=
  (cs.reverse.dropWhile (· = '0')).reverse

/-- Exponent field of `%e`-style output: sign and at least two digits. -/
def exp_field (e : Int) : String :=
  let mag := e.natAbs
  let ds := nat_digits mag
  let ds2 := if mag < 10 then '0' :: ds else ds
  (if e < 0 then "e-" else "e+") ++ String.mk ds2

/-- `printf("%g", v)` on a positive non-integral double value: 6 significant
digits, trailing zeros removed, `%e` style for exponents outside `[-4, 6)`. -/
def g_format_pos (a : ℚ) : String :=
  let e0 := dec_exponent a
  let n0 := round_half_even (a * q_pow10 (5 - e0))
  let carry : Bool := n0 ≥ 10 ^ 6
  let n := if carry then n0 / 10 else n0
  let e := if carry then e0 + 1 else e0
  let ds := nat_digits n.toNat
  if e < -4 ∨ e ≥ 6 then
    let mantissa :=
      match ds with
      | [] => "0"
      | d :: rest =>
        match strip_zeros rest with
        | [] => String.mk [d]
        | frac => String.mk [d] ++ "." ++ String.mk frac
    mantissa ++ exp_field e
  else if 0 ≤ e then
    let ip := ds.take (e + 1).toNat
    match strip_zeros (ds.drop (e + 1).toNat) with
    | [] => String.mk ip
    | frac => String.mk ip ++ "." ++ String.mk frac
  else
    "0." ++ String.mk (List.replicate (-e - 1).toNat '0' ++ strip_zeros ds)

/-- `printf("%g", v)` on a non-integral double value. -/
def g_format (q : ℚ) : String :=
  if q < 0 then "-" ++ g_format_pos (-q) else g_format_pos q

/-- `object_to_string`: `NULL` prints as `"null"`; a number prints without a
decimal point (`%.0f`) exactly when `modf` reports a zero fractional part,
and in compact `%g` form otherwise; a string prints as its contents. -/
def object_to_string : Option Value → String
  | none => "null"
  | some (.num q) => if q.den = 1 then int_render q.num else g_format q
  | some (.str s) => s

/-- `atof` on the numeral shapes the lexer produces (digits with at most one
embedded decimal point): value, digit count, and unconsumed rest. -/
def parse_digits : List Char → Nat → Nat → Nat × Nat × List Char
  | [], acc, cnt => (acc, cnt, [])
  | c :: rest, acc, cnt =>
    if '0' ≤ c ∧ c ≤ '9' then
      parse_digits rest (acc * 10 + (c.toNat - 48)) (cnt + 1)
    else (acc, cnt, c :: rest)

/-- `atof` restricted to the lexer's numerals, exact. -/
def atof_q (v : String) : ℚ :=
  let (ip, _, rest) := parse_digits v.toList 0 0
  match rest with
  | '.' :: rest2 =>
    let (fp, k, _) := parse_digits rest2 0 0
    (ip : ℚ) + (fp : ℚ) / ((10 ^ k : ℕ) : ℚ)
  | _ => (ip : ℚ)

/-- `is_truthy`: `NULL` is false, a number is truthy iff nonzero, a string is
truthy iff nonempty. -/
def is_truthy : Option Value → Bool
  | none => false
  | some (.num v) => v ≠ 0
  | some (.str s) => s.length > 0

/-! ### Interpreter state (`InterpreterContext`, scopes, tables) -/

/-- `VariableEntry`: one binding of a scope frame. -/
structure VariableEntry where
  name : String
  is_constant : Bool
  value : Option Value
deriving DecidableEq, Repr

/-- A scope frame: its list of variable entries, newest first. -/
abbrev Scope := List VariableEntry

/-- `FunctionEntry` of the flat function table. -/
structure FunctionEntry where
  name : String
  params : List String
  body : Stmt
deriving Repr

/-- The interpreter's global state: the scope chain (innermost first), the
function table, the `InterpreterContext` fields, the lines printed so far,
and a marker set when the source program reaches behaviour the pure model
does not capture (C undefined behaviour, heap-mutating builtins). -/
structure InterpState where
  scopes : List Scope
  function_table : List FunctionEntry
  error : KunyuError
  has_return : Bool
  return_value : Option Value
  output : List String
  outOfModel : Bool
deriving Repr

/-- Record a runtime error: only `code` and `message` are assigned, as at
every error site of the interpreter translation unit. -/
def set_runtime_error (s : InterpState) (msg : String) : InterpState :=
  { s with error := { s.error with code := .runtimeError, message := msg } }

/-- Mark that execution reached behaviour outside the model. -/
def out_of_model (s : InterpState) : InterpState :=
  { s with outOfModel := true }

/-- `push_scope`: a fresh empty frame whose parent is the current chain. -/
def push_scope (s : InterpState) : InterpState :=
  { s with scopes := [] :: s.scopes }

/-- `pop_scope`: drop the innermost frame (no-op on an empty chain). -/
def pop_scope (s : InterpState) : InterpState :=
  { s with scopes := s.scopes.tail }

/-- `find_variable_in_scope`. -/
def find_variable_in_scope (name : String) (frame : Scope) : Option VariableEntry :=
  frame.find? (·.name = name)

/-- `find_variable`: walk the chain from the innermost frame outward. -/
def find_variable (name : String) : List Scope → Option VariableEntry
  | [] => none
  | frame :: rest =>
    match find_variable_in_scope name frame with
    | some e => some e
    | none => find_variable name rest

/-- `find_function`. -/
def find_function (name : String) (table : List FunctionEntry) : Option FunctionEntry :=
  table.find? (·.name = name)

/-- `define_variable`: error when the name already exists in the current
frame, otherwise prepend a new entry to the current frame only. -/
def define_variable (name : String) (value : Option Value) (is_constant : Bool)
    (s : InterpState) : Bool × InterpState :=
  match s.scopes with
  | [] => (false, s)
  | frame :: rest =>
    if (find_variable_in_scope name frame).isSome then
      (false, set_runtime_error s ("变量'" ++ name ++ "'已经在当前作用域中定义"))
    else
      (true, { s with scopes :=
        ({ name := name, is_constant := is_constant, value := value } :: frame) :: rest })

/-- `define_function`: error on redeclaration, otherwise prepend. -/
def define_function (name : String) (params : List String) (body : Stmt)
    (s : InterpState) : Bool × InterpState :=
  if (find_function name s.function_table).isSome then
    (false, set_runtime_error s ("函数'" ++ name ++ "'已经定义"))
  else
    (true, { s with function_table :=
      { name := name, params := params, body := body } :: s.function_table })

/-- `get_variable`: the stored value, or an error for an undefined name. -/
def get_variable (name : String) (s : InterpState) : Option Value × InterpState :=
  match find_variable name s.scopes with
  | none => (none, set_runtime_error s ("未定义的变量: " ++ name))
  | some e => (e.value, s)

/-- Replace the value of the first entry with the given name in a frame. -/
def assign_in_frame (name : String) (v : Option Value) : Scope → Scope
  | [] => []
  | e :: rest =>
    if e.name = name then { e with value := v } :: rest
    else e :: assign_in_frame name v rest

/-- Replace the value of the innermost binding of `name` in the chain. -/
def assign_in_scopes (name : String) (v : Option Value) : List Scope → List Scope
  | [] => []
  | frame :: rest =>
    if (find_variable_in_scope name frame).isSome then assign_in_frame name v frame :: rest
    else frame :: assign_in_scopes name v rest

/-- `set_variable`: errors for an undeclared name or a constant, otherwise
rebinds the innermost existing binding in place. -/
def set_variable (name : String) (v : Option Value) (s : InterpState) : Bool × InterpState :=
  match find_variable name s.scopes with
  | none => (false, set_runtime_error s ("未定义的变量: " ++ name))
  | some e =>
    if e.is_constant then (false, set_runtime_error s ("不能修改常量: " ++ name))
    else (true, { s with scopes := assign_in_scopes name v s.scopes })

/-- The names registered by `builtins_init`. -/
def builtin_names : List String :=
  ["创建列表", "列表添加", "列表长度", "列表获取", "列表设置",
   "创建字典", "字典设置", "字典获取", "字典大小"]

/-- `builtins_is_builtin`. -/
def builtins_is_builtin (name : String) : Bool :=
  builtin_names.contains name

/-! ### The tree-walking evaluator -/

/-- The pack of the two mutually recursive evaluator entry points,
`eval_expression` and `execute_statement`; one pack level is consumed per
nested recursive call (and per loop iteration). -/
structure InterpFns where
  evalE : Expr → InterpState → Option Value × InterpState
  execS : Stmt → InterpState → Bool × InterpState

/-- `eval_literal_expr`. -/
def eval_literal_expr (tokenType : TokType) (value : String)
    (s : InterpState) : Option Value × InterpState :=
  match tokenType with
  | .number => (some (.num (atof_q value)), s)
  | .string => (some (.str value), s)
  | _ => (none, set_runtime_error s ("不支持的字面量类型"))

/-- `eval_variable_expr` (the reference-count increment is a no-op in the
pure value model). -/
def eval_variable_expr (name : String) (s : InterpState) : Option Value × InterpState :=
  get_variable name s

/-- The `type == TYPE_STRING` test on an operand value. -/
def is_string_value : Value → Bool
  | .str _ => true
  | .num _ => false

/-- The numeric `switch` of `eval_binary_expr`, both operands numbers.
`OP_AND` and `OP_OR` have no case and fall to the `default:` arm.  The `%`
case casts both operands to `int`; when the divisor truncates to zero (or a
cast is out of range) the source computes an undefined C expression, which
the model marks as out of model. -/
def eval_numeric_binop (op : BinOp) (a b : ℚ) (s : InterpState) :
    Option Value × InterpState :=
  match op with
  | .add => (some (.num (a + b)), s)
  | .sub => (some (.num (a - b)), s)
  | .mul => (some (.num (a * b)), s)
  | .div =>
    if b = 0 then (none, set_runtime_error s ("除数不能为零"))
    else (some (.num (a / b)), s)
  | .mod =>
    if b = 0 then (none, set_runtime_error s ("模运算的除数不能为零"))
    else
      match c_int_cast a, c_int_cast b with
      | some x, some y =>
        if y = 0 then (none, out_of_model s)
        else (some (.num ((Int.tmod x y : Int) : ℚ)), s)
      | _, _ => (none, out_of_model s)
  | .eq => (some (.num (if a = b then 1 else 0)), s)
  | .ne => (some (.num (if a ≠ b then 1 else 0)), s)
  | .lt => (some (.num (if a < b then 1 else 0)), s)
  | .le => (some (.num (if a ≤ b then 1 else 0)), s)
  | .gt => (some (.num (if a > b then 1 else 0)), s)
  | .ge => (some (.num (if a ≥ b then 1 else 0)), s)
  | _ => (none, set_runtime_error s ("不支持的运算符"))

/-- `eval_binary_expr`: evaluate the left then the right operand; string
concatenation when the operator is `+` and either operand is a string;
numeric dispatch when both are numbers; type-mismatch error otherwise. -/
def eval_binary_expr (I : InterpFns) (left : Expr) (op : BinOp) (right : Expr)
    (s : InterpState) : Option Value × InterpState :=
  match I.evalE left s with
  | (none, s1) => (none, s1)
  | (some lv, s1) =>
    match I.evalE right s1 with
    | (none, s2) => (none, s2)
    | (some rv, s2) =>
      if op = .add ∧ (is_string_value lv ∨ is_string_value rv) then
        (some (.str (object_to_string (some lv) ++ object_to_string (some rv))), s2)
      else
        match lv, rv with
        | .num a, .num b => eval_numeric_binop op a b s2
        | _, _ => (none, set_runtime_error s2 ("类型不匹配的运算"))

/-- The parameter-binding loop of `eval_call_expr`: each argument is
evaluated (inside the already-pushed call scope) and bound as a
non-constant variable. -/
def bind_params (I : InterpFns) : List String → List Expr → InterpState → Bool × InterpState
  | [], _, s => (true, s)
  | _, [], s => (true, s)
  | p :: ps, a :: as_, s =>
    match I.evalE a s with
    | (none, s1) => (false, s1)
    | (some v, s1) =>
      match define_variable p (some v) false s1 with
      | (false, s2) => (false, s2)
      | (true, s2) => bind_params I ps as_ s2

/-- The tail of `eval_call_expr` after the parameters are bound: reset the
return state, execute the body, capture the return value when the flag was
set (a body that never executed `return` yields no value), then pop the call
scope and clear the return-flag/return-value state before control returns. -/
def finish_call (I : InterpFns) (func : FunctionEntry) (s2 : InterpState) :
    Option Value × InterpState :=
  let s3 := { s2 with has_return := false, return_value := none }
  match I.execS func.body s3 with
  | (success, s4) =>
    let rv := if success ∧ s4.has_return then s4.return_value else none
    let s5 := pop_scope s4
    let s6 := { s5 with has_return := false, return_value := none }
    if success then (rv, s6) else (none, s6)

/-- `eval_call_expr`: builtins are looked up first (they mutate the shared
heap, which this pure fragment does not model); then the user function table
with an exact-arity check; on a match a new scope parented on the current
chain is pushed, each parameter is bound to its evaluated argument as a
non-constant variable, and `finish_call` runs the body. -/
def eval_call_expr (I : InterpFns) (name : String) (args : List Expr)
    (s : InterpState) : Option Value × InterpState :=
  if builtins_is_builtin name then
    (none, out_of_model s)
  else
    match find_function name s.function_table with
    | none => (none, set_runtime_error s ("未定义的函数: " ++ name))
    | some func =>
      if args.length ≠ func.params.length then
        (none, set_runtime_error s
          ("函数'" ++ name ++ "'需要" ++ toString func.params.length ++
           "个参数，但接收到" ++ toString args.length ++ "个"))
      else
        let s1 := push_scope s
        match bind_params I func.params args s1 with
        | (false, s2) => (none, pop_scope s2)
        | (true, s2) => finish_call I func s2

/-- `eval_assign_expr`: evaluate the right-hand side, install it through
`set_variable`, and yield it as the expression's own value. -/
def eval_assign_expr (I : InterpFns) (name : String) (value : Expr)
    (s : InterpState) : Option Value × InterpState :=
  match I.evalE value s with
  | (none, s1) => (none, s1)
  | (some v, s1) =>
    match set_variable name (some v) s1 with
    | (false, s2) => (none, s2)
    | (true, s2) => (some v, s2)

/-- `eval_expression`: dispatch on the node kind; `NODE_UNARY` has no case in
the evaluator's `switch` and falls to the default error. -/
def eval_expression (I : InterpFns) (e : Expr) (s : InterpState) :
    Option Value × InterpState :=
  match e with
  | .lit tokenType value => eval_literal_expr tokenType value s
  | .var name => eval_variable_expr name s
  | .binary left op right => eval_binary_expr I left op right s
  | .grouping inner => I.evalE inner s
  | .call name args => eval_call_expr I name args s
  | .assign name value => eval_assign_expr I name value s
  | .unary _ _ => (none, set_runtime_error s ("不支持的表达式类型"))

/-- `exec_print_stmt`: evaluate and append one printed line. -/
def exec_print_stmt (I : InterpFns) (value : Expr) (s : InterpState) :
    Bool × InterpState :=
  match I.evalE value s with
  | (none, s1) => (false, s1)
  | (some v, s1) => (true, { s1 with output := s1.output ++ [object_to_string (some v)] })

/-- `exec_var_decl`: evaluate the initializer, then bind in the current
scope. -/
def exec_var_decl (I : InterpFns) (name : String) (initializer : Expr)
    (is_constant : Bool) (s : InterpState) : Bool × InterpState :=
  match I.evalE initializer s with
  | (none, s1) => (false, s1)
  | (some v, s1) => define_variable name (some v) is_constant s1

/-- `exec_if_stmt`. -/
def exec_if_stmt (I : InterpFns) (condition : Expr) (thenBranch : Stmt)
    (elseBranch : Option Stmt) (s : InterpState) : Bool × InterpState :=
  match I.evalE condition s with
  | (none, s1) => (false, s1)
  | (some c, s1) =>
    if is_truthy (some c) then I.execS thenBranch s1
    else
      match elseBranch with
      | some els => I.execS els s1
      | none => (true, s1)

/-- `exec_loop_stmt`: re-evaluate the condition before each iteration, stop
when falsy or when the return flag is set after the body; each iteration
re-enters through the pack. -/
def exec_loop_stmt (I : InterpFns) (condition : Expr) (body : Stmt)
    (s : InterpState) : Bool × InterpState :=
  match I.evalE condition s with
  | (none, s1) => (false, s1)
  | (some c, s1) =>
    if ¬ is_truthy (some c) then (true, s1)
    else
      match I.execS body s1 with
      | (false, s2) => (false, s2)
      | (true, s2) =>
        if s2.has_return then (true, s2)
        else I.execS (.loop condition body) s2

/-- `exec_return_stmt`: release the previous return value, evaluate the new
one, then set the flag. -/
def exec_return_stmt (I : InterpFns) (value : Expr) (s : InterpState) :
    Bool × InterpState :=
  let s0 := { s with return_value := none }
  match I.evalE value s0 with
  | (none, s1) => (false, s1)
  | (some v, s1) => (true, { s1 with return_value := some v, has_return := true })

/-- The statement loop of `execute_block` (and also of `execute_program`):
run in order, stop on failure or once the return flag is set. -/
def exec_stmt_list (I : InterpFns) : List Stmt → InterpState → Bool × InterpState
  | [], s => (true, s)
  | stmt :: rest, s =>
    match I.execS stmt s with
    | (false, s1) => (false, s1)
    | (true, s1) =>
      if s1.has_return then (true, s1)
      else exec_stmt_list I rest s1

/-- `execute_block`: push a scope, run the statements, pop on every exit
path. -/
def execute_block (I : InterpFns) (stmts : List Stmt) (s : InterpState) :
    Bool × InterpState :=
  let s1 := push_scope s
  match exec_stmt_list I stmts s1 with
  | (false, s2) => (false, pop_scope s2)
  | (true, s2) => (true, pop_scope s2)

/-- `exec_expression_stmt`: a `NULL` evaluation result fails the statement —
including the valueless result of a successful call to a function that never
executed `return`. -/
def exec_expression_stmt (I : InterpFns) (e : Expr) (s : InterpState) :
    Bool × InterpState :=
  match I.evalE e s with
  | (none, s1) => (false, s1)
  | (some _, s1) => (true, s1)

/-- `execute_statement`: dispatch on the node kind. -/
def execute_statement (I : InterpFns) (stmt : Stmt) (s : InterpState) :
    Bool × InterpState :=
  match stmt with
  | .print value => exec_print_stmt I value s
  | .varDecl name initializer is_constant => exec_var_decl I name initializer is_constant s
  | .ifStmt condition thenBranch elseBranch => exec_if_stmt I condition thenBranch elseBranch s
  | .loop condition body => exec_loop_stmt I condition body s
  | .funcDecl name params body => define_function name params body s
  | .block stmts => execute_block I stmts s
  | .ret value => exec_return_stmt I value s
  | .exprStmt e => exec_expression_stmt I e s

/-- One level of the evaluator pack. -/
def interp_step (I : InterpFns) : InterpFns :=
  { evalE := eval_expression I
    execS := execute_statement I }

/-- Base pack: recursion budget exhausted (never reached with adequate
fuel); gives up without touching the state. -/
def interp_bottom : InterpFns :=
  { evalE := fun _ s => (none, s)
    execS := fun _ s => (false, s) }

/-- The evaluator pack at a given recursion depth. -/
def interp_at : Nat → InterpFns
  | 0 => interp_bottom
  | fuel + 1 => interp_step (interp_at fuel)

/-- The state `interpreter_init` builds: zeroed error, cleared return state,
a single empty global scope, an empty function table. -/
def init_state : InterpState :=
  { scopes := [[]]
    function_table := []
    error := noError
    has_return := false
    return_value := none
    output := []
    outOfModel := false }

/-- `execute_program`: run the top-level statements in order, aborting on
the first failure. -/
def execute_program (I : InterpFns) (prog : Program) (s : InterpState) : Bool × InterpState :=
  exec_stmt_list I prog s

/-- `interpreter_execute`: initialize the interpreter and run the program.
`fuel` bounds the evaluation depth (and loop iteration count). -/
def interpreter_execute (fuel : Nat) (prog : Program) : Bool × InterpState :=
  execute_program (interp_at fuel) prog init_state

/-! ### The reference-counted object heap (object-system translation unit)

The `PyObject` heap is modelled as an association list from object ids
(non-null pointers) to objects.  Only the operations the claims exercise are
modelled; `malloc` is assumed to succeed. -/

/-- Payload of a `PyObject`; the constructor tag is the `ObjectType`. -/
inductive ObjPayload where
  | num (v : ℚ)
  | str (s : String)
  | list (items : List Nat)
  | dict (items : List (Nat × Nat))
deriving DecidableEq, Repr

/-- A heap object: its live reference count and payload.  The destructor
function pointer is determined by the payload tag, as the constructors set
it. -/
structure Obj where
  ref_count : Int
  payload : ObjPayload
deriving DecidableEq, Repr

/-- The heap: object id → object. -/
abbrev Heap := List (Nat × Obj)

/-- Dereference an object id. -/
def heap_get (h : Heap) (id : Nat) : Option Obj :=
  (h.find? (·.1 = id)).map (·.2)

/-- Overwrite the object stored at an id. -/
def heap_set (h : Heap) (id : Nat) (o : Obj) : Heap :=
  h.map (fun p => if p.1 = id then (id, o) else p)

/-- `free` an object. -/
def heap_erase (h : Heap) (id : Nat) : Heap :=
  h.filter (fun p => ¬ p.1 = id)

/-- `py_incref`: increment the reference count (`NULL` is a no-op). -/
def py_incref (id : Nat) (h : Heap) : Heap :=
  match heap_get h id with
  | none => h
  | some o => heap_set h id { o with ref_count := o.ref_count + 1 }

/-- `py_decref`: decrement the count; at zero or below, run the destructor
(releasing every owned id — list items, dict keys then values) and then free
the object.  The fuel bounds the cascade depth. -/
def py_decref : Nat → Nat → Heap → Heap
  | 0, _, h => h
  | fuel + 1, id, h =>
    match heap_get h id with
    | none => h
    | some o =>
      let rc := o.ref_count - 1
      if rc ≤ 0 then
        let h0 := heap_set h id { o with ref_count := rc }
        let h1 :=
          match o.payload with
          | .list items => items.foldl (fun acc i => py_decref fuel i acc) h0
          | .dict kvs => kvs.foldl (fun acc kv => py_decref fuel kv.2 (py_decref fuel kv.1 acc)) h0
          | _ => h0
        heap_erase h1 id
      else
        heap_set h id { o with ref_count := rc }

/-- A fresh id for a newly allocated object. -/
def heap_fresh (h : Heap) : Nat :=
  (h.map (·.1)).foldr max 0 + 1

/-- `py_number_new`: a fresh number object with reference count 1. -/
def py_number_new (v : ℚ) (h : Heap) : Nat × Heap :=
  let id := heap_fresh h
  (id, h ++ [(id, { ref_count := 1, payload := .num v })])

/-- `py_list_new`: a fresh empty list object with reference count 1. -/
def py_list_new (h : Heap) : Nat × Heap :=
  let id := heap_fresh h
  (id, h ++ [(id, { ref_count := 1, payload := .list [] })])

/-- `py_list_append`: append the item id to the list's item array and
increment the item's reference count; false when the first argument is not a
live list object. -/
def py_list_append (listId itemId : Nat) (h : Heap) : Bool × Heap :=
  match heap_get h listId with
  | some o =>
    match o.payload with
    | .list items =>
      (true, py_incref itemId (heap_set h listId { o with payload := .list (items ++ [itemId]) }))
    | _ => (false, h)
  | none => (false, h)

/-! ### Projections and concrete inputs used by the claim theorems -/

/-- The diagnostic position carried by the interpreter's error slot. -/
def errPos (s : InterpState) : Int × Int :=
  (s.error.line, s.error.column)

/-- Name and constancy of each binding of a frame, newest first. -/
def frame_sig (f : Scope) : List (String × Bool) :=
  f.map (fun en => (en.name, en.is_constant))

/-- Signature of the whole scope chain. -/
def sig (s : InterpState) : List (List (String × Bool)) :=
  s.scopes.map frame_sig

/-- Expression-level state invariant: the evaluator neither moves the
error's diagnostic position nor changes the shape (names and constancy, per
frame) of the scope chain. -/
def presE (s t : InterpState) : Prop :=
  errPos t = errPos s ∧ sig t = sig s

/-- Statement-level state invariant: the diagnostic position is unchanged,
the scope chain keeps its length, and only the innermost frame may acquire
new bindings. -/
def presS (s t : InterpState) : Prop :=
  errPos t = errPos s ∧ (sig t).length = (sig s).length ∧ (sig t).tail = (sig s).tail

/-- Both invariants, for a whole evaluator pack. -/
def InvOK (I : InterpFns) : Prop :=
  (∀ e s, presE s (I.evalE e s).2) ∧ (∀ st s, presS s (I.execS st s).2)

/-- The spelling `parse_binary_expr` maps each operator back from. -/
def op_string : BinOp → String
  | .eq => "==" | .lt => "<" | .gt => ">"
  | .ne => "!=" | .le => "<=" | .ge => ">="
  | .and => "&&" | .or => "||"
  | .add => "+" | .sub => "-"
  | .mul => "*" | .div => "/" | .mod => "%"

/-- Token stream of a binary chain continuation: operator, primary,
operator, primary, … (number literals as the primaries). -/
def chain_toks : List (BinOp × String) → List Token
  | [] => []
  | p :: rest => ⟨.operator, op_string p.1, 0, 0⟩ :: ⟨.number, p.2, 0, 0⟩ :: chain_toks rest

/-- The strictly left-associative grouping of a binary chain: the node built
so far becomes the left operand of the next operator, whose right operand is
the primary. -/
def chain_fold (left : Expr) : List (BinOp × String) → Expr
  | [] => left
  | p :: rest => chain_fold (.binary left p.1 (.lit .number p.2)) rest

/-- The continuation after a binary chain must not begin with an operator
token. -/
def head_not_op (rest : List Token) : Prop :=
  ∀ t, rest.head? = some t → t.type ≠ .operator

/-- Lexer output for the expression `2 + 3 * 4` (followed by `;` EOF). -/
def toks_c1 : List Token :=
  [⟨.number, "2", 1, 1⟩, ⟨.operator, "+", 1, 3⟩, ⟨.number, "3", 1, 5⟩,
   ⟨.operator, "*", 1, 7⟩, ⟨.number, "4", 1, 9⟩,
   ⟨.delimiter, ";", 1, 10⟩, ⟨.eof, "", 1, 11⟩]

/-- The AST `(2 + 3) * 4`. -/
def ast_c1 : Expr :=
  .binary (.binary (.lit .number "2") .add (.lit .number "3")) .mul (.lit .number "4")

/-- Lexer output for the source `常量 x = 1; x = 2;`. -/
def toks_c2 : List Token :=
  [⟨.keyword, "常量", 1, 1⟩, ⟨.identifier, "x", 1, 8⟩, ⟨.operator, "=", 1, 10⟩,
   ⟨.number, "1", 1, 12⟩, ⟨.delimiter, ";", 1, 13⟩,
   ⟨.identifier, "x", 1, 15⟩, ⟨.operator, "=", 1, 17⟩, ⟨.number, "2", 1, 19⟩,
   ⟨.delimiter, ";", 1, 20⟩, ⟨.eof, "", 1, 21⟩]

/-- The same source with the second statement's semicolon doubled
(`常量 x = 1; x = 2;;`), the smallest change that satisfies the parser's
expression-statement check. -/
def toks_c2_doubled : List Token :=
  [⟨.keyword, "常量", 1, 1⟩, ⟨.identifier, "x", 1, 8⟩, ⟨.operator, "=", 1, 10⟩,
   ⟨.number, "1", 1, 12⟩, ⟨.delimiter, ";", 1, 13⟩,
   ⟨.identifier, "x", 1, 15⟩, ⟨.operator, "=", 1, 17⟩, ⟨.number, "2", 1, 19⟩,
   ⟨.delimiter, ";", 1, 20⟩, ⟨.delimiter, ";", 1, 21⟩, ⟨.eof, "", 1, 22⟩]

/-- AST of `常量 x = 1; x = 2;`. -/
def prog_c2 : Program :=
  [.varDecl "x" (.lit .number "1") true,
   .exprStmt (.assign "x" (.lit .number "2"))]

/-- A `函数 f() { }` declaration followed by the bare call statement
`f();`. -/
def prog_c4 : Program :=
  [.funcDecl "f" [] (.block []),
   .exprStmt (.call "f" [])]

/-- `函数 g() { 返回 y; }` called from inside a block that declares a local
`y` — the body resolves `y` against the caller's chain. -/
def prog_c8_dyn : Program :=
  [.funcDecl "g" [] (.block [.ret (.var "y")]),
   .block [.varDecl "y" (.lit .number "7") false, .print (.call "g" [])]]

/-- `函数 add1(x) { 返回 x + 1; } 输出 add1(41);`. -/
def prog_c8_arity : Program :=
  [.funcDecl "add1" ["x"] (.block [.ret (.binary (.var "x") .add (.lit .number "1"))]),
   .print (.call "add1" [.lit .number "41"])]

/-- A state whose global frame binds `x` (mutable) and `k` (constant). -/
def wit_c7_state : InterpState :=
  { init_state with scopes :=
      [[{ name := "x", is_constant := false, value := some (.num 0) },
        { name := "k", is_constant := true, value := some (.num 0) }]] }

/-- A state with an empty inner frame over an outer frame binding `y`. -/
def wit_c7_shadow : InterpState :=
  { init_state with scopes :=
      [[], [{ name := "y", is_constant := false, value := some (.num 0) }]] }

/-- A state whose function table holds `函数 h(a) { }`. -/
def st_c8 : InterpState :=
  { init_state with function_table := [{ name := "h", params := ["a"], body := .block [] }] }

/-- A state whose function table holds `函数 f() { }`. -/
def st_c4 : InterpState :=
  { init_state with function_table := [{ name := "f", params := [], body := .block [] }] }

/-- The state in which `f`'s body runs when called from `st_c4`. -/
def st_c4_body : InterpState :=
  { push_scope st_c4 with has_return := false, return_value := none }

/-- What `eval_binary_expr` reports for `&&` and `||` once both operands have
values: two numbers reach the numeric switch's `default:` arm, any other pair
the type-mismatch arm. -/
def logical_err_msg : Value → Value → String
  | .num _, .num _ => "不支持的运算符"
  | _, _ => "类型不匹配的运算"

/-- The expression `1 && 1`. -/
def e_c3 : Expr :=
  .binary (.lit .number "1") .and (.lit .number "1")

/-- The expression `1 % 0.5`. -/
def e_c5 : Expr :=
  .binary (.lit .number "1") .mod (.lit .number "0.5")

/-- The expression `"" + 123456.7`. -/
def e_c6 : Expr :=
  .binary (.lit .string ("")) .add (.lit .number "123456.7")

/-- A heap holding an empty list (id 1, one reference: the caller's) and a
number (id 2, one reference: the caller's). -/
def h_c9 : Heap :=
  [(1, { ref_count := 1, payload := .list [] }),
   (2, { ref_count := 1, payload := .num 5 })]

/-- `h_c9` after `列表添加` appends object 2 to list 1. -/
def h_c9_app : Heap :=
  (py_list_append 1 2 h_c9).2

/-- A heap holding a two-element list (id 1) whose only reference is about to
be released; each element is also referenced once from elsewhere. -/
def h_c9_full : Heap :=
  [(1, { ref_count := 1, payload := .list [2, 3] }),
   (2, { ref_count := 2, payload := .num 5 }),
   (3, { ref_count := 2, payload := .num 6 })]

/-! ## State-invariant lemmas for the evaluator -/

theorem presE_refl (s : InterpState) : presE s s := ⟨rfl, rfl⟩

theorem presS_refl (s : InterpState) : presS s s := ⟨rfl, rfl, rfl⟩

theorem presE_trans {s t u : InterpState} (h1 : presE s t) (h2 : presE t u) : presE s u :=
  ⟨h2.1.trans h1.1, h2.2.trans h1.2⟩

theorem presS_of_presE {s t : InterpState} (h : presE s t) : presS s t :=
  ⟨h.1, by rw [h.2], by rw [h.2]⟩

theorem presS_trans {s t u : InterpState} (h1 : presS s t) (h2 : presS t u) : presS s u :=
  ⟨h2.1.trans h1.1, h2.2.1.trans h1.2.1, h2.2.2.trans h1.2.2⟩

theorem presS_trans_es {s t u : InterpState} (h1 : presE s t) (h2 : presS t u) : presS s u :=
  presS_trans (presS_of_presE h1) h2

theorem presS_trans_se {s t u : InterpState} (h1 : presS s t) (h2 : presE t u) : presS s u :=
  presS_trans h1 (presS_of_presE h2)

theorem map_frame_sig_tail (sc : List Scope) :
    sc.tail.map frame_sig = (sc.map frame_sig).tail := by
  cases sc <;> rfl

theorem sig_pop_scope (s : InterpState) : sig (pop_scope s) = (sig s).tail := by
  show s.scopes.tail.map frame_sig = (s.scopes.map frame_sig).tail
  exact map_frame_sig_tail s.scopes

theorem presE_set_runtime_error (s : InterpState) (m : String) :
    presE s (set_runtime_error s m) := ⟨rfl, rfl⟩

theorem frame_sig_assign_in_frame (name : String) (v : Option Value) (f : Scope) :
    frame_sig (assign_in_frame name v f) = frame_sig f := by
  induction f with
  | nil => rfl
  | cons e rest ih =>
    simp only [assign_in_frame]
    split
    · rfl
    · show (e.name, e.is_constant) :: frame_sig (assign_in_frame name v rest)
        = (e.name, e.is_constant) :: frame_sig rest
      rw [ih]

theorem map_sig_assign_in_scopes (name : String) (v : Option Value) (sc : List Scope) :
    (assign_in_scopes name v sc).map frame_sig = sc.map frame_sig := by
  induction sc with
  | nil => rfl
  | cons f rest ih =>
    simp only [assign_in_scopes]
    split
    · show frame_sig (assign_in_frame name v f) :: rest.map frame_sig
        = frame_sig f :: rest.map frame_sig
      rw [frame_sig_assign_in_frame]
    · show frame_sig f :: (assign_in_scopes name v rest).map frame_sig
        = frame_sig f :: rest.map frame_sig
      rw [ih]

theorem presE_set_variable (name : String) (v : Option Value) (s : InterpState) :
    presE s (set_variable name v s).2 := by
  simp only [set_variable]
  cases h : find_variable name s.scopes with
  | none => exact ⟨rfl, rfl⟩
  | some e =>
    dsimp only
    split
    · exact ⟨rfl, rfl⟩
    · exact ⟨rfl, map_sig_assign_in_scopes name v s.scopes⟩

theorem presS_define_variable (name : String) (v : Option Value) (c : Bool) (s : InterpState) :
    presS s (define_variable name v c s).2 := by
  simp only [define_variable]
  cases h : s.scopes with
  | nil => exact presS_refl s
  | cons F rest =>
    dsimp only
    split
    · exact presS_of_presE (presE_set_runtime_error s _)
    · refine ⟨rfl, ?_, ?_⟩
      · simp [sig, h]
      · simp [sig, h]

theorem presE_define_function (name : String) (params : List String) (body : Stmt)
    (s : InterpState) : presE s (define_function name params body s).2 := by
  simp only [define_function]
  split
  · exact ⟨rfl, rfl⟩
  · exact ⟨rfl, rfl⟩

theorem presE_get_variable (name : String) (s : InterpState) :
    presE s (get_variable name s).2 := by
  simp only [get_variable]
  cases h : find_variable name s.scopes with
  | none => exact ⟨rfl, rfl⟩
  | some e => exact ⟨rfl, rfl⟩

theorem presE_eval_literal (tokenType : TokType) (v : String) (s : InterpState) :
    presE s (eval_literal_expr tokenType v s).2 := by
  cases tokenType <;> exact ⟨rfl, rfl⟩

theorem presE_eval_numeric_binop (op : BinOp) (a b : ℚ) (s : InterpState) :
    presE s (eval_numeric_binop op a b s).2 := by
  cases op <;> simp only [eval_numeric_binop] <;> (repeat' split) <;> exact ⟨rfl, rfl⟩

theorem presE_eval_binary_expr {I : InterpFns} (hI : InvOK I) (left : Expr) (op : BinOp)
    (right : Expr) (s : InterpState) : presE s (eval_binary_expr I left op right s).2 := by
  simp only [eval_binary_expr]
  cases hL : I.evalE left s with
  | mk lvo s1 =>
    have pL : presE s s1 := by have := hI.1 left s; rw [hL] at this; exact this
    cases lvo with
    | none => exact pL
    | some lv =>
      dsimp only
      cases hR : I.evalE right s1 with
      | mk rvo s2 =>
        have pR : presE s s2 :=
          presE_trans pL (by have := hI.1 right s1; rw [hR] at this; exact this)
        cases rvo with
        | none => exact pR
        | some rv =>
          dsimp only
          split
          · exact pR
          · cases lv with
            | num a =>
              cases rv with
              | num b => exact presE_trans pR (presE_eval_numeric_binop op a b s2)
              | str t => exact presE_trans pR (presE_set_runtime_error s2 _)
            | str t =>
              cases rv <;> exact presE_trans pR (presE_set_runtime_error s2 _)

theorem presS_bind_params {I : InterpFns} (hI : InvOK I) :
    ∀ (ps : List String) (args : List Expr) (s : InterpState),
      presS s (bind_params I ps args s).2 := by
  intro ps
  induction ps with
  | nil =>
    intro args s
    simp only [bind_params]
    exact presS_refl s
  | cons p ps ih =>
    intro args s
    cases args with
    | nil => exact presS_refl s
    | cons a rest =>
      simp only [bind_params]
      cases hA : I.evalE a s with
      | mk vo s1 =>
        have pA : presE s s1 := by have := hI.1 a s; rw [hA] at this; exact this
        cases vo with
        | none => exact presS_of_presE pA
        | some v =>
          dsimp only
          cases hD : define_variable p (some v) false s1 with
          | mk ok s2 =>
            have pD : presS s s2 := presS_trans_es pA
              (by have := presS_define_variable p (some v) false s1; rw [hD] at this; exact this)
            cases ok with
            | false => exact pD
            | true => exact presS_trans pD (ih rest s2)

theorem finish_call_pres {I : InterpFns} (hI : InvOK I) (func : FunctionEntry)
    (s2 : InterpState) :
    errPos (finish_call I func s2).2 = errPos s2 ∧
    sig (finish_call I func s2).2 = (sig s2).tail := by
  simp only [finish_call]
  cases hX : I.execS func.body { s2 with has_return := false, return_value := none } with
  | mk success s4 =>
    have pX : presS s2 s4 := by
      have := hI.2 func.body { s2 with has_return := false, return_value := none }
      rw [hX] at this; exact this
    have hsig : sig (pop_scope s4) = (sig s2).tail := by
      rw [sig_pop_scope]; exact pX.2.2
    simp only [hX]
    cases success with
    | false => exact ⟨pX.1, hsig⟩
    | true => exact ⟨pX.1, hsig⟩

theorem presE_eval_call_expr {I : InterpFns} (hI : InvOK I) (name : String)
    (args : List Expr) (s : InterpState) : presE s (eval_call_expr I name args s).2 := by
  simp only [eval_call_expr]
  split
  · exact ⟨rfl, rfl⟩
  · cases hF : find_function name s.function_table with
    | none => exact ⟨rfl, rfl⟩
    | some func =>
      dsimp only
      split
      · exact ⟨rfl, rfl⟩
      · cases hB : bind_params I func.params args (push_scope s) with
        | mk ok s2 =>
          have pB : presS (push_scope s) s2 := by
            have := presS_bind_params hI func.params args (push_scope s)
            rw [hB] at this; exact this
          cases ok with
          | false =>
            refine ⟨pB.1, ?_⟩
            show sig (pop_scope s2) = sig s
            rw [sig_pop_scope, pB.2.2]
            rfl
          | true =>
            have pF := finish_call_pres hI func s2
            refine ⟨pF.1.trans pB.1, ?_⟩
            show sig (finish_call I func s2).2 = sig s
            rw [pF.2, pB.2.2]
            rfl

theorem presE_eval_assign {I : InterpFns} (hI : InvOK I) (name : String) (value : Expr)
    (s : InterpState) : presE s (eval_assign_expr I name value s).2 := by
  simp only [eval_assign_expr]
  cases hA : I.evalE value s with
  | mk vo s1 =>
    have pA : presE s s1 := by have := hI.1 value s; rw [hA] at this; exact this
    cases vo with
    | none => exact pA
    | some v =>
      dsimp only
      cases hS : set_variable name (some v) s1 with
      | mk ok s2 =>
        have pS : presE s s2 := presE_trans pA
          (by have := presE_set_variable name (some v) s1; rw [hS] at this; exact this)
        cases ok <;> exact pS

theorem presE_eval_expression {I : InterpFns} (hI : InvOK I) (e : Expr) (s : InterpState) :
    presE s (eval_expression I e s).2 := by
  cases e with
  | lit tokenType value => exact presE_eval_literal tokenType value s
  | var name => exact presE_get_variable name s
  | binary left op right => exact presE_eval_binary_expr hI left op right s
  | grouping inner => exact hI.1 inner s
  | call name args => exact presE_eval_call_expr hI name args s
  | assign name value => exact presE_eval_assign hI name value s
  | unary op operand => exact ⟨rfl, rfl⟩

theorem presS_exec_stmt_list {I : InterpFns} (hI : InvOK I) :
    ∀ (L : List Stmt) (s : InterpState), presS s (exec_stmt_list I L s).2 := by
  intro L
  induction L with
  | nil => intro s; exact presS_refl s
  | cons stmt rest ih =>
    intro s
    simp only [exec_stmt_list]
    cases hX : I.execS stmt s with
    | mk r s1 =>
      have pX : presS s s1 := by have := hI.2 stmt s; rw [hX] at this; exact this
      cases r with
      | false => exact pX
      | true =>
        dsimp only
        split
        · exact pX
        · exact presS_trans pX (ih s1)

theorem execute_block_pres {I : InterpFns} (hI : InvOK I) (L : List Stmt) (s : InterpState) :
    errPos (execute_block I L s).2 = errPos s ∧ sig (execute_block I L s).2 = sig s := by
  simp only [execute_block]
  cases hX : exec_stmt_list I L (push_scope s) with
  | mk r s2 =>
    have pX : presS (push_scope s) s2 := by
      have := presS_exec_stmt_list hI L (push_scope s)
      rw [hX] at this; exact this
    have hsig : sig (pop_scope s2) = sig s := by
      rw [sig_pop_scope, pX.2.2]; rfl
    cases r with
    | false => exact ⟨pX.1, hsig⟩
    | true => exact ⟨pX.1, hsig⟩

theorem presS_execute_statement {I : InterpFns} (hI : InvOK I) (stmt : Stmt) (s : InterpState) :
    presS s (execute_statement I stmt s).2 := by
  cases stmt with
  | print value =>
    show presS s (exec_print_stmt I value s).2
    simp only [exec_print_stmt]
    cases hA : I.evalE value s with
    | mk vo s1 =>
      have pA : presE s s1 := by have := hI.1 value s; rw [hA] at this; exact this
      cases vo with
      | none => exact presS_of_presE pA
      | some v => exact presS_of_presE (presE_trans pA ⟨rfl, rfl⟩)
  | varDecl name initializer is_constant =>
    show presS s (exec_var_decl I name initializer is_constant s).2
    simp only [exec_var_decl]
    cases hA : I.evalE initializer s with
    | mk vo s1 =>
      have pA : presE s s1 := by have := hI.1 initializer s; rw [hA] at this; exact this
      cases vo with
      | none => exact presS_of_presE pA
      | some v =>
        exact presS_trans_es pA (presS_define_variable name (some v) is_constant s1)
  | ifStmt condition thenBranch elseBranch =>
    show presS s (exec_if_stmt I condition thenBranch elseBranch s).2
    simp only [exec_if_stmt]
    cases hC : I.evalE condition s with
    | mk co s1 =>
      have pC : presE s s1 := by have := hI.1 condition s; rw [hC] at this; exact this
      cases co with
      | none => exact presS_of_presE pC
      | some c =>
        dsimp only
        split
        · exact presS_trans_es pC (hI.2 thenBranch s1)
        · cases elseBranch with
          | some els => exact presS_trans_es pC (hI.2 els s1)
          | none => exact presS_of_presE pC
  | loop condition body =>
    show presS s (exec_loop_stmt I condition body s).2
    simp only [exec_loop_stmt]
    cases hC : I.evalE condition s with
    | mk co s1 =>
      have pC : presE s s1 := by have := hI.1 condition s; rw [hC] at this; exact this
      cases co with
      | none => exact presS_of_presE pC
      | some c =>
        dsimp only
        split
        · exact presS_of_presE pC
        · cases hB : I.execS body s1 with
          | mk r s2 =>
            have pB : presS s s2 := presS_trans_es pC
              (by have := hI.2 body s1; rw [hB] at this; exact this)
            cases r with
            | false => exact pB
            | true =>
              dsimp only
              split
              · exact pB
              · exact presS_trans pB (hI.2 (.loop condition body) s2)
  | funcDecl name params body =>
    exact presS_of_presE (presE_define_function name params body s)
  | block stmts =>
    show presS s (execute_block I stmts s).2
    have h := execute_block_pres hI stmts s
    exact ⟨h.1, by rw [h.2], by rw [h.2]⟩
  | ret value =>
    show presS s (exec_return_stmt I value s).2
    simp only [exec_return_stmt]
    cases hA : I.evalE value { s with return_value := none } with
    | mk vo s1 =>
      have pA : presE s s1 := presE_trans (⟨rfl, rfl⟩ : presE s { s with return_value := none })
        (by have := hI.1 value { s with return_value := none }; rw [hA] at this; exact this)
      cases vo with
      | none => exact presS_of_presE pA
      | some v => exact presS_of_presE (presE_trans pA ⟨rfl, rfl⟩)
  | exprStmt e =>
    show presS s (exec_expression_stmt I e s).2
    simp only [exec_expression_stmt]
    cases hA : I.evalE e s with
    | mk vo s1 =>
      have pA : presE s s1 := by have := hI.1 e s; rw [hA] at this; exact this
      cases vo with
      | none => exact presS_of_presE pA
      | some v => exact presS_of_presE pA

theorem InvOK_step {I : InterpFns} (hI : InvOK I) : InvOK (interp_step I) :=
  ⟨fun e s => presE_eval_expression hI e s, fun stmt s => presS_execute_statement hI stmt s⟩

theorem InvOK_interp_at (fuel : Nat) : InvOK (interp_at fuel) := by
  induction fuel with
  | zero => exact ⟨fun _ s => presE_refl s, fun _ s => presS_refl s⟩
  | succ n ih => exact InvOK_step ih

/-! ## Variable lookup depends only on the names in the chain -/

theorem find_variable_none_iff (name : String) (sc : List Scope) :
    find_variable name sc = none ↔ ∀ f ∈ sc, find_variable_in_scope name f = none := by
  induction sc with
  | nil => simp [find_variable]
  | cons f rest ih =>
    simp only [find_variable]
    cases h : find_variable_in_scope name f with
    | some e => simp [List.forall_mem_cons, h]
    | none => simp [List.forall_mem_cons, h, ih]

theorem find_in_scope_none_congr {name : String} {f g : Scope}
    (h : frame_sig f = frame_sig g) :
    find_variable_in_scope name f = none → find_variable_in_scope name g = none := by
  simp only [find_variable_in_scope, List.find?_eq_none, decide_eq_true_eq]
  intro hf e he
  have hmem : (e.name, e.is_constant) ∈ frame_sig g :=
    List.mem_map_of_mem (fun en => (en.name, en.is_constant)) he
  rw [← h] at hmem
  rcases List.mem_map.mp hmem with ⟨e2, he2, hee⟩
  have hname : e2.name = e.name := congrArg Prod.fst hee
  intro hcontra
  exact hf e2 he2 (hname.trans hcontra)

theorem find_variable_none_congr {name : String} {sc tc : List Scope}
    (h : sc.map frame_sig = tc.map frame_sig) :
    find_variable name sc = none → find_variable name tc = none := by
  rw [find_variable_none_iff, find_variable_none_iff]
  intro hall g hg
  have hmem : frame_sig g ∈ sc.map frame_sig := by
    rw [h]; exact List.mem_map_of_mem frame_sig hg
  rcases List.mem_map.mp hmem with ⟨f, hf, hfg⟩
  exact find_in_scope_none_congr hfg (hall f hf)

/-! ## Claim theorems -/

/-- Claim C10: every runtime error carries line 0 and column 0 —
`interpreter_init` zeroes the position fields of the error slot, and no
error site of the evaluator ever assigns them afterwards, so running any
program leaves them at 0 whatever the outcome. -/
theorem C10_runtime_error_position (fuel : Nat) (prog : Program) :
    (interpreter_execute fuel prog).2.error.line = 0 ∧
    (interpreter_execute fuel prog).2.error.column = 0 := by
  have hP : presS init_state (exec_stmt_list (interp_at fuel) prog init_state).2 :=
    presS_exec_stmt_list (InvOK_interp_at fuel) prog init_state
  exact ⟨congrArg Prod.fst hP.1, congrArg Prod.snd hP.1⟩

/-- Claim C7: scope discipline.  (1) Executing a block statement restores the
scope chain's shape exactly — every frame keeps its names and constancy
flags — so a name unreachable before the block is unreachable after its
closing brace.  (2) Redeclaring a name already bound in the current frame is
an error.  (3) Declaring a name absent from the current frame (even if bound
in an enclosing frame) succeeds and prepends a fresh binding to the current
frame only.  (4) Assigning to an undeclared name is a runtime error.
(5) Assigning to a constant is a runtime error. -/
theorem C7_scope_discipline :
    (∀ (fuel : Nat) (L : List Stmt) (s : InterpState) (r : Bool) (s2 : InterpState),
        (interp_at (fuel + 1)).execS (.block L) s = (r, s2) →
        sig s2 = sig s ∧
        ∀ name, find_variable name s.scopes = none → find_variable name s2.scopes = none) ∧
    (∀ (name : String) (v : Option Value) (c : Bool) (s : InterpState) (F : Scope)
        (rest : List Scope),
        s.scopes = F :: rest →
        (find_variable_in_scope name F).isSome = true →
        define_variable name v c s =
          (false, set_runtime_error s ("变量'" ++ name ++ "'已经在当前作用域中定义"))) ∧
    (∀ (name : String) (v : Option Value) (c : Bool) (s : InterpState) (F : Scope)
        (rest : List Scope),
        s.scopes = F :: rest →
        find_variable_in_scope name F = none →
        define_variable name v c s =
          (true, { s with scopes :=
            ({ name := name, is_constant := c, value := v } :: F) :: rest })) ∧
    (∀ (name : String) (v : Option Value) (s : InterpState),
        find_variable name s.scopes = none →
        set_variable name v s = (false, set_runtime_error s ("未定义的变量: " ++ name))) ∧
    (∀ (name : String) (v : Option Value) (s : InterpState) (e : VariableEntry),
        find_variable name s.scopes = some e → e.is_constant = true →
        set_variable name v s = (false, set_runtime_error s ("不能修改常量: " ++ name))) := by
  refine ⟨?_, ?_, ?_, ?_, ?_⟩
  · intro fuel L s r s2 hrun
    have hb : execute_block (interp_at fuel) L s = (r, s2) := hrun
    have hp := execute_block_pres (InvOK_interp_at fuel) L s
    rw [hb] at hp
    exact ⟨hp.2, fun name => find_variable_none_congr hp.2.symm⟩
  · intro name v c s F rest hs hF
    simp only [define_variable, hs, hF]
    rfl
  · intro name v c s F rest hs hF
    simp only [define_variable, hs, hF, Option.isSome_none, Bool.false_eq_true, if_false]
  · intro name v s hfv
    simp only [set_variable, hfv]
  · intro name v s e hfv hc
    simp only [set_variable, hfv, hc]
    rfl

/-- Witness for C7 at concrete inputs: a block that declares `t` leaves the
global frame's shape unchanged and `t` unreachable; redeclaring `x` in the
same frame errors; shadowing an outer `x` succeeds; assigning to undeclared
`z` and to constant `k` error. -/
theorem C7_scope_discipline_witness :
    (sig (((interp_at 4).execS
        (.block [.varDecl "t" (.lit .number "1") false]) wit_c7_state).2) = sig wit_c7_state ∧
      find_variable "t" (((interp_at 4).execS
        (.block [.varDecl "t" (.lit .number "1") false]) wit_c7_state).2).scopes = none) ∧
    define_variable "x" (some (.num 1)) false wit_c7_state =
      (false, set_runtime_error wit_c7_state ("变量'x'已经在当前作用域中定义")) ∧
    define_variable "y" (some (.num 1)) false wit_c7_shadow =
      (true, { wit_c7_shadow with scopes :=
        ({ name := "y", is_constant := false, value := some (.num 1) } :: []) ::
          [[{ name := "y", is_constant := false, value := some (.num 0) }]] }) ∧
    set_variable "z" (some (.num 1)) wit_c7_state =
      (false, set_runtime_error wit_c7_state ("未定义的变量: z")) ∧
    set_variable "k" (some (.num 1)) wit_c7_state =
      (false, set_runtime_error wit_c7_state ("不能修改常量: k")) := by
  have h := C7_scope_discipline
  refine ⟨?_, ?_, ?_, ?_, ?_⟩
  · have h1 := h.1 3 [.varDecl "t" (.lit .number "1") false] wit_c7_state
      ((interp_at 4).execS (.block [.varDecl "t" (.lit .number "1") false]) wit_c7_state).1
      ((interp_at 4).execS (.block [.varDecl "t" (.lit .number "1") false]) wit_c7_state).2
      rfl
    exact ⟨h1.1, h1.2 "t" (by with_unfolding_all rfl)⟩
  · exact h.2.1 "x" (some (.num 1)) false wit_c7_state _ _ rfl (by with_unfolding_all rfl)
  · exact h.2.2.1 "y" (some (.num 1)) false wit_c7_shadow _ _ rfl (by with_unfolding_all rfl)
  · exact h.2.2.2.1 "z" (some (.num 1)) wit_c7_state (by with_unfolding_all rfl)
  · exact h.2.2.2.2 "k" (some (.num 1)) wit_c7_state _ (by with_unfolding_all rfl) rfl

/-! ## Lemmas about user-function calls -/

theorem eval_call_arity_mismatch (I : InterpFns) (name : String) (args : List Expr)
    (s : InterpState) (func : FunctionEntry)
    (hb : builtins_is_builtin name = false)
    (hf : find_function name s.function_table = some func)
    (hn : args.length ≠ func.params.length) :
    eval_call_expr I name args s =
      (none, set_runtime_error s
        ("函数'" ++ name ++ "'需要" ++ toString func.params.length ++
         "个参数，但接收到" ++ toString args.length ++ "个")) := by
  simp only [eval_call_expr, hb, Bool.false_eq_true, if_false, hf]
  rw [if_pos hn]

theorem define_variable_sig (name : String) (v : Option Value) (c : Bool)
    (s t : InterpState) (fs : List (String × Bool)) (restsig : List (List (String × Bool)))
    (hs : sig s = fs :: restsig)
    (h : define_variable name v c s = (true, t)) :
    sig t = ((name, c) :: fs) :: restsig := by
  cases hsc : s.scopes with
  | nil => simp [sig, hsc] at hs
  | cons F rest =>
    have hs2 : frame_sig F :: rest.map frame_sig = fs :: restsig := by
      rw [← hs]; simp [sig, hsc]
    have hfs : frame_sig F = fs := (List.cons.inj hs2).1
    have hrest : rest.map frame_sig = restsig := (List.cons.inj hs2).2
    simp only [define_variable, hsc] at h
    by_cases hF : (find_variable_in_scope name F).isSome
    · rw [if_pos hF] at h; simp at h
    · rw [if_neg hF] at h
      have ht : t = { s with scopes :=
          ({ name := name, is_constant := c, value := v } :: F) :: rest } :=
        (congrArg Prod.snd h).symm
      rw [ht]
      show frame_sig ({ name := name, is_constant := c, value := v } :: F)
          :: rest.map frame_sig = ((name, c) :: fs) :: restsig
      rw [show frame_sig ({ name := name, is_constant := c, value := v } :: F)
          = (name, c) :: frame_sig F from rfl, hfs, hrest]

theorem bind_params_sig {I : InterpFns} (hI : InvOK I) :
    ∀ (ps : List String) (args : List Expr) (s : InterpState)
      (fs : List (String × Bool)) (restsig : List (List (String × Bool)))
      (s2 : InterpState),
      ps.length = args.length →
      sig s = fs :: restsig →
      bind_params I ps args s = (true, s2) →
      sig s2 = ((ps.reverse.map (fun p => (p, false))) ++ fs) :: restsig := by
  intro ps
  induction ps with
  | nil =>
    intro args s fs restsig s2 hlen hs hb
    simp only [bind_params] at hb
    have : s = s2 := congrArg Prod.snd hb
    rw [← this, hs]
    simp
  | cons p ps ih =>
    intro args s fs restsig s2 hlen hs hb
    cases args with
    | nil => simp at hlen
    | cons a rest =>
      simp only [bind_params] at hb
      cases hA : I.evalE a s with
      | mk vo s1 =>
        rw [hA] at hb
        cases vo with
        | none => simp at hb
        | some v =>
          dsimp only at hb
          cases hD : define_variable p (some v) false s1 with
          | mk ok s1' =>
            rw [hD] at hb
            cases ok with
            | false => simp at hb
            | true =>
              dsimp only at hb
              have pA : presE s s1 := by
                have := hI.1 a s; rw [hA] at this; exact this
              have hs1 : sig s1 = fs :: restsig := by rw [pA.2, hs]
              have hs1' : sig s1' = ((p, false) :: fs) :: restsig :=
                define_variable_sig p (some v) false s1 s1' fs restsig hs1 hD
              have := ih rest s1' ((p, false) :: fs) restsig s2
                (by simpa using hlen) hs1' hb
              rw [this]
              simp [List.map_append]

/-- Claim C8: calling a user-defined function (a name the builtin registry
does not claim).  Arity mismatch yields a runtime error whose message names
the function, the declared count and the supplied count, with the state —
and therefore the body — untouched.  On an exact match a fresh scope whose
parent is the chain active at the call site is pushed, every parameter is
bound in that frame as a non-constant binding, and by the time the call
returns the frame has been popped (the chain has its original length).  The
two concrete programs run a call through the whole pipeline: `add1(41)`
prints `42`, and `g`'s body resolves `y` from the caller's block, i.e. the
call scope is parented on the caller, not the declaration site. -/
theorem C8_user_function_calls :
    (∀ (I : InterpFns) (name : String) (args : List Expr) (s : InterpState)
        (func : FunctionEntry),
        builtins_is_builtin name = false →
        find_function name s.function_table = some func →
        args.length ≠ func.params.length →
        eval_call_expr I name args s =
          (none, set_runtime_error s
            ("函数'" ++ name ++ "'需要" ++ toString func.params.length ++
             "个参数，但接收到" ++ toString args.length ++ "个"))) ∧
    (∀ s : InterpState, (push_scope s).scopes = [] :: s.scopes) ∧
    (∀ (fuel : Nat) (params : List String) (args : List Expr) (s s2 : InterpState),
        params.length = args.length →
        bind_params (interp_at fuel) params args (push_scope s) = (true, s2) →
        sig s2 = (params.reverse.map (fun p => (p, false))) :: sig s) ∧
    (∀ (fuel : Nat) (name : String) (args : List Expr) (s : InterpState),
        ((eval_call_expr (interp_at fuel) name args s).2).scopes.length = s.scopes.length) ∧
    ((interpreter_execute 12 prog_c8_arity).1 = true ∧
      (interpreter_execute 12 prog_c8_arity).2.output = ["42"]) ∧
    ((interpreter_execute 12 prog_c8_dyn).1 = true ∧
      (interpreter_execute 12 prog_c8_dyn).2.output = ["7"]) := by
  refine ⟨eval_call_arity_mismatch, fun s => rfl, ?_, ?_, ?_, ?_⟩
  · intro fuel params args s s2 hlen hb
    have := bind_params_sig (InvOK_interp_at fuel) params args (push_scope s)
      [] (sig s) s2 hlen (by simp [sig, push_scope, frame_sig]) hb
    simpa using this
  · intro fuel name args s
    have hp := (presE_eval_call_expr (InvOK_interp_at fuel) name args s).2
    have := congrArg List.length hp
    simpa [sig] using this
  · constructor
    · with_unfolding_all rfl
    · with_unfolding_all rfl
  · constructor
    · with_unfolding_all rfl
    · with_unfolding_all rfl

/-- Witness for C8 at concrete inputs: calling `h(a)` with zero arguments
errors with the expected message, and binding `["a"]` to `[5]` produces a
call frame with the single non-constant binding `a`. -/
theorem C8_user_function_calls_witness :
    (eval_call_expr (interp_at 2) "h" [] st_c8 =
      (none, set_runtime_error st_c8 ("函数'h'需要1个参数，但接收到0个"))) ∧
    sig (bind_params (interp_at 2) ["a"] [.lit .number "5"]
        (push_scope init_state)).2 = [("a", false)] :: sig init_state := by
  constructor
  · exact C8_user_function_calls.1 (interp_at 2) "h" [] st_c8
      { name := "h", params := ["a"], body := .block [] } rfl (by with_unfolding_all rfl)
      (by decide)
  · exact C8_user_function_calls.2.2.1 2 ["a"] [.lit .number "5"] init_state
      (bind_params (interp_at 2) ["a"] [.lit .number "5"] (push_scope init_state)).2
      (by decide) (by with_unfolding_all rfl)

/-! ## Lemmas about valueless calls (no `return` executed) -/

/-- Claim C4 (amended): a call to a user function whose body completes
without executing `return` yields **no value**, with the return-flag and
return-value state cleared before control returns; the enclosing expression
statement then **fails** — `exec_expression_stmt` cannot tell the valueless
result from an error — leaving the error slot untouched. -/
theorem C4_void_call_fails (fuel : Nat) (s : InterpState) (name : String)
    (func : FunctionEntry) (s4 : InterpState)
    (hb : builtins_is_builtin name = false)
    (hf : find_function name s.function_table = some func)
    (hp : func.params = [])
    (hrun : (interp_at fuel).execS func.body
        { push_scope s with has_return := false, return_value := none } = (true, s4))
    (hnr : s4.has_return = false) :
    eval_call_expr (interp_at fuel) name [] s =
      (none, { pop_scope s4 with has_return := false, return_value := none }) ∧
    execute_statement (interp_at (fuel + 1)) (.exprStmt (.call name [])) s =
      (false, { pop_scope s4 with has_return := false, return_value := none }) := by
  have hcall : eval_call_expr (interp_at fuel) name [] s =
      (none, { pop_scope s4 with has_return := false, return_value := none }) := by
    simp only [eval_call_expr, hb, Bool.false_eq_true, if_false, hf, hp]
    rw [if_neg (by simp)]
    simp only [bind_params, finish_call, hrun, hnr]
    simp
  refine ⟨hcall, ?_⟩
  show exec_expression_stmt (interp_at (fuel + 1)) (.call name []) s = _
  simp only [exec_expression_stmt]
  have hev : (interp_at (fuel + 1)).evalE (.call name []) s =
      (none, { pop_scope s4 with has_return := false, return_value := none }) := hcall
  rw [hev]

/-- Witness for C4's amended statement at `函数 f() { }`. -/
theorem C4_void_call_fails_witness :
    eval_call_expr (interp_at 4) "f" [] st_c4 =
      (none, { pop_scope st_c4_body with has_return := false, return_value := none }) ∧
    execute_statement (interp_at 5) (.exprStmt (.call "f" [])) st_c4 =
      (false, { pop_scope st_c4_body with has_return := false, return_value := none }) :=
  C4_void_call_fails 4 st_c4 "f" { name := "f", params := [], body := .block [] }
    st_c4_body rfl (by with_unfolding_all rfl) rfl (by with_unfolding_all rfl) rfl

/-- Counterexample to C4 as stated: in `函数 f() { } f();` the expression
statement `f();` does **not** execute successfully — the program run fails,
and it fails without any runtime error being recorded. -/
theorem C4_counterexample :
    (interpreter_execute 8 prog_c4).1 = false ∧
    (interpreter_execute 8 prog_c4).2.error.code = ErrCode.ok := by
  constructor
  · with_unfolding_all rfl
  · with_unfolding_all rfl

/-! ## Logical operators (`&&`, `||`) -/

/-- Claim C3 (amended): when the operator is `&&` or `||`, `eval_binary_expr`
does evaluate both operands, left first, with no short-circuiting — but it
never produces a 0/1 truthiness value: the numeric `switch` has no case for
`OP_AND` or `OP_OR`, so two numeric operands fall to the `default:` arm's
unsupported-operator runtime error, and any other operand pair to the
type-mismatch runtime error. -/
theorem C3_logical_ops_error (I : InterpFns) (left right : Expr) (op : BinOp)
    (s s1 s2 : InterpState) (lv rv : Value)
    (hop : op = .and ∨ op = .or)
    (hL : I.evalE left s = (some lv, s1))
    (hR : I.evalE right s1 = (some rv, s2)) :
    eval_binary_expr I left op right s =
      (none, set_runtime_error s2 (logical_err_msg lv rv)) := by
  have hne : ¬ (op = .add ∧ (is_string_value lv ∨ is_string_value rv)) := by
    rcases hop with h | h <;> subst h <;> exact fun hc => by cases hc.1
  simp only [eval_binary_expr, hL, hR]
  rw [if_neg hne]
  rcases hop with h | h <;> subst h <;> cases lv <;> cases rv <;> rfl

/-- Witness for C3's amended statement: `1 && 1` reaches the
unsupported-operator error with both operands already evaluated. -/
theorem C3_logical_ops_error_witness :
    eval_binary_expr (interp_at 1) (.lit .number "1") .and (.lit .number "1") init_state =
      (none, set_runtime_error init_state (logical_err_msg (.num 1) (.num 1))) := by
  exact C3_logical_ops_error (interp_at 1) (.lit .number "1") (.lit .number "1") .and
    init_state init_state init_state (.num 1) (.num 1) (Or.inl rfl)
    (by with_unfolding_all rfl) (by with_unfolding_all rfl)

/-- Counterexample to C3 as stated: evaluating `1 && 1` does not succeed with
a truthiness-derived 0/1 number — it fails with a runtime
unsupported-operator error and no result value. -/
theorem C3_counterexample :
    ((interp_at 2).evalE e_c3 init_state).1 = none ∧
    ((interp_at 2).evalE e_c3 init_state).2.error.code = ErrCode.runtimeError ∧
    ((interp_at 2).evalE e_c3 init_state).2.error.message = "不支持的运算符" := by
  refine ⟨?_, ?_, ?_⟩ <;> with_unfolding_all rfl

/-! ## Division and modulo -/

/-- Claim C5 (amended): with both operands numeric, `a / b` yields the exact
quotient when `b ≠ 0` and the division-by-zero runtime error when `b = 0`;
`a % b` casts both operands to C `int` and yields the truncated remainder
`Int.tmod` provided both casts are in range and the divisor's truncation is
nonzero, and yields the modulo-by-zero runtime error when `b = 0`.  (When
`b ≠ 0` but `(int) b = 0`, the source computes `x % 0`, which C leaves
undefined — see the counterexample.) -/
theorem C5_div_mod_semantics (a b : ℚ) (s : InterpState) :
    (b ≠ 0 → eval_numeric_binop .div a b s = (some (.num (a / b)), s)) ∧
    (b = 0 → eval_numeric_binop .div a b s =
      (none, set_runtime_error s ("除数不能为零"))) ∧
    (∀ x y : Int, b ≠ 0 → c_int_cast a = some x → c_int_cast b = some y → y ≠ 0 →
      eval_numeric_binop .mod a b s = (some (.num ((Int.tmod x y : Int) : ℚ)), s)) ∧
    (b = 0 → eval_numeric_binop .mod a b s =
      (none, set_runtime_error s ("模运算的除数不能为零"))) := by
  refine ⟨?_, ?_, ?_, ?_⟩
  · intro hb; simp only [eval_numeric_binop]; rw [if_neg hb]
  · intro hb; subst hb; simp [eval_numeric_binop]
  · intro x y hb hx hy hyne
    simp only [eval_numeric_binop]
    rw [if_neg hb, hx, hy]
    dsimp only
    rw [if_neg hyne]
  · intro hb; subst hb; simp [eval_numeric_binop]

/-- Witness for C5's amended statement on `7 / 2`, `7 / 0`, `7 % 2` and
`7 % 0`. -/
theorem C5_div_mod_semantics_witness :
    eval_numeric_binop .div 7 2 init_state = (some (.num (7 / 2)), init_state) ∧
    eval_numeric_binop .div 7 0 init_state =
      (none, set_runtime_error init_state ("除数不能为零")) ∧
    eval_numeric_binop .mod 7 2 init_state =
      (some (.num ((Int.tmod 7 2 : Int) : ℚ)), init_state) ∧
    eval_numeric_binop .mod 7 0 init_state =
      (none, set_runtime_error init_state ("模运算的除数不能为零")) := by
  have h2 := C5_div_mod_semantics 7 2 init_state
  have h0 := C5_div_mod_semantics 7 0 init_state
  exact ⟨h2.1 (by norm_num), h0.2.1 rfl,
    h2.2.2.1 7 2 (by norm_num) (by with_unfolding_all rfl)
      (by with_unfolding_all rfl) (by decide),
    h0.2.2.2 rfl⟩

/-- Counterexample to C5 as stated: in `1 % 0.5` the divisor is nonzero, yet
evaluation does not produce the remainder of the integer-cast operands —
the source computes `(int)1.0 % (int)0.5`, i.e. `1 % 0`, undefined behaviour
in C (marked out of model here), with no runtime error recorded. -/
theorem C5_counterexample :
    atof_q "0.5" = 1 / 2 ∧ (1 : ℚ) / 2 ≠ 0 ∧
    ((interp_at 2).evalE e_c5 init_state).1 = none ∧
    ((interp_at 2).evalE e_c5 init_state).2.outOfModel = true ∧
    ((interp_at 2).evalE e_c5 init_state).2.error.code = ErrCode.ok := by
  refine ⟨by with_unfolding_all rfl, by norm_num, ?_, ?_, ?_⟩ <;> with_unfolding_all rfl

/-! ## String concatenation and number rendering -/

theorem digit_char_ne_dot (n : Nat) : digit_char n ≠ '.' := by
  match n with
  | 0 | 1 | 2 | 3 | 4 | 5 | 6 | 7 | 8 => decide
  | n + 9 =>
    show ('9' : Char) ≠ ('.' : Char)
    decide

theorem dot_not_in_digits_aux (fuel : Nat) :
    ∀ n : Nat, '.' ∉ nat_digits_aux fuel n := by
  induction fuel with
  | zero => intro n; simp [nat_digits_aux]
  | succ f ih =>
    intro n
    simp only [nat_digits_aux]
    split
    · simp only [List.mem_singleton]
      exact fun h => digit_char_ne_dot n h.symm
    · simp only [List.mem_append, List.mem_singleton]
      rintro (h | h)
      · exact ih (n / 10) h
      · exact digit_char_ne_dot (n % 10) h.symm

theorem int_render_no_dot (i : Int) : '.' ∉ (int_render i).data := by
  simp only [int_render]
  split
  · show '.' ∉ ('-' :: nat_digits i.natAbs)
    simp only [List.mem_cons]
    rintro (h | h)
    · cases h
    · exact dot_not_in_digits_aux _ _ h
  · show '.' ∉ nat_digits i.natAbs
    exact dot_not_in_digits_aux _ _

/-- Claim C6 (amended): with the operator `+` and at least one string
operand, evaluation yields the concatenation of the two operands' textual
representations, in the operand order (so both `s + n` and `n + s` work);
and a number with zero fractional part (denominator 1 in the exact model)
renders with no decimal point.  The converse of the rendering clause is
false: `%g` can also render a non-integral number without a decimal point —
see the counterexample. -/
theorem C6_string_concat (I : InterpFns) (left right : Expr) (s s1 s2 : InterpState)
    (lv rv : Value)
    (hL : I.evalE left s = (some lv, s1))
    (hR : I.evalE right s1 = (some rv, s2))
    (hstr : is_string_value lv ∨ is_string_value rv) :
    eval_binary_expr I left .add right s =
      (some (.str (object_to_string (some lv) ++ object_to_string (some rv))), s2) ∧
    ∀ q : ℚ, q.den = 1 → '.' ∉ (object_to_string (some (.num q))).data := by
  constructor
  · simp only [eval_binary_expr, hL, hR]
    rw [if_pos ⟨trivial, hstr⟩]
  · intro q hq
    simp only [object_to_string]
    rw [if_pos hq]
    exact int_render_no_dot q.num

/-- Witness for C6's amended statement: `"ab" + 2` concatenates with the
number on the right, and the integral number 5 renders with no decimal
point. -/
theorem C6_string_concat_witness :
    eval_binary_expr (interp_at 1) (.lit .string ("ab")) .add (.lit .number "2") init_state =
      (some (.str (object_to_string (some (.str "ab")) ++
        object_to_string (some (.num (atof_q "2"))))), init_state) ∧
    '.' ∉ (object_to_string (some (.num 5))).data := by
  have h := C6_string_concat (interp_at 1) (.lit .string ("ab")) (.lit .number "2")
    init_state init_state init_state (.str "ab") (.num (atof_q "2"))
    (by with_unfolding_all rfl) (by with_unfolding_all rfl) (Or.inl rfl)
  exact ⟨h.1, h.2 5 (by norm_num)⟩

/-- Counterexample to C6 as stated: `123456.7` has a nonzero fractional part
(denominator 10), yet `"" + 123456.7` evaluates to `"123457"` — `%g` keeps
six significant digits and drops the decimal point entirely, so "renders
without a decimal point" does not imply "zero fractional part". -/
theorem C6_counterexample :
    (atof_q "123456.7").den = 10 ∧
    (interp_at 2).evalE e_c6 init_state = (some (.str "123457"), init_state) ∧
    '.' ∉ ("123457").data := by
  refine ⟨by with_unfolding_all rfl, by with_unfolding_all rfl, by decide⟩

/-! ## Left-associative binary chains -/

theorem bin_op_of_string_op_string (o : BinOp) :
    bin_op_of_string (op_string o) = some o := by
  cases o <;> rfl

theorem parse_primary_number (I : ParseFns) (v : String) (ts : List Token)
    (err : KunyuError) (l c : Int) :
    parse_primary I { toks := ⟨.number, v, l, c⟩ :: ts, perror := err } =
      (some (.lit .number v), { toks := ts, perror := err }) := rfl

/-- One step of `parse_binary_expr` on an operator token followed by a number
literal: build the binary node with the accumulated expression on the left,
then continue through `pBin` exactly when the next token is an operator. -/
theorem parse_binary_step (I : ParseFns) (left : Expr) (op : BinOp) (v : String)
    (ts : List Token) (err : KunyuError) :
    parse_binary_expr I left
        { toks := ⟨.operator, op_string op, 0, 0⟩ :: ⟨.number, v, 0, 0⟩ :: ts
          perror := err } =
      (match ts.head? with
       | some next =>
         if next.type = .operator then
           I.pBin (.binary left op (.lit .number v)) { toks := ts, perror := err }
         else
           (some (.binary left op (.lit .number v)), { toks := ts, perror := err })
       | none =>
         (some (.binary left op (.lit .number v)), { toks := ts, perror := err })) := by
  simp only [parse_binary_expr, advanceP]
  rw [bin_op_of_string_op_string]
  dsimp only
  rw [parse_primary_number]
  rfl

/-- The binary-chain loop groups strictly left-to-right: parsing the token
stream of a nonempty operator/primary chain starting from an accumulated
left operand builds `chain_fold` of the chain — each binary node becomes the
left operand of the following operator — and stops at the first non-operator
continuation. -/
theorem parse_chain_left_assoc :
    ∀ (ps : List (BinOp × String)) (fuel : Nat) (left : Expr) (rest : List Token)
      (err : KunyuError),
      ps.length ≤ fuel → ps ≠ [] → head_not_op rest →
      (parse_at (fuel + 1)).pBin left { toks := chain_toks ps ++ rest, perror := err } =
        (some (chain_fold left ps), { toks := rest, perror := err }) := by
  intro ps
  induction ps with
  | nil => intro fuel left rest err _ hne _; exact absurd rfl hne
  | cons p ps ih =>
    intro fuel left rest err hlen _ hrest
    rw [show (parse_at (fuel + 1)).pBin = parse_binary_expr (parse_at fuel) from rfl]
    simp only [chain_toks, List.cons_append]
    rw [parse_binary_step]
    cases hps : ps with
    | nil =>
      simp only [chain_toks, List.nil_append]
      cases hh : rest.head? with
      | none => simp only [chain_fold]
      | some t =>
        have := hrest t hh
        simp only [if_neg (by simpa using this)]
        simp only [chain_fold]
    | cons q qs =>
      have hlen2 : ps.length + 1 ≤ fuel := by simpa using hlen
      cases fuel with
      | zero => omega
      | succ f =>
        simp only [chain_toks, List.cons_append, List.head?_cons]
        rw [if_pos trivial]
        rw [← hps]
        have hfe : ps.length ≤ f := by omega
        have := ih f (.binary left p.1 (.lit .number p.2)) rest err hfe
          (by rw [hps]; exact fun h => List.noConfusion h) hrest
        rw [hps] at this ⊢
        simp only [chain_toks, List.cons_append] at this ⊢
        rw [this]
        simp only [chain_fold]

/-- Claim C1: binary chains group strictly left-to-right with no operator
precedence — the right operand of each operator is a `parse_primary` result
and the node built so far becomes the next operator's left operand
(`chain_fold`); concretely, the expression `2 + 3 * 4` parses to the AST
`(2 + 3) * 4` and evaluates to 20, not 14. -/
theorem C1_left_associative_chains :
    (∀ (ps : List (BinOp × String)) (fuel : Nat) (left : Expr) (rest : List Token)
        (err : KunyuError),
        ps.length ≤ fuel → ps ≠ [] → head_not_op rest →
        (parse_at (fuel + 1)).pBin left { toks := chain_toks ps ++ rest, perror := err } =
          (some (chain_fold left ps), { toks := rest, perror := err })) ∧
    ((parse_at 6).pExpr { toks := toks_c1, perror := noError }).1 = some ast_c1 ∧
    (interp_at 3).evalE ast_c1 init_state = (some (.num 20), init_state) := by
  refine ⟨parse_chain_left_assoc, ?_, ?_⟩ <;> with_unfolding_all rfl

/-- Witness for C1 at the chain of `2 + 3 * 4`: from the accumulated `2`,
the continuation `+ 3 * 4` parses to `chain_fold` of the chain — the AST
`(2 + 3) * 4` — stopping at the `;`. -/
theorem C1_left_associative_chains_witness :
    (parse_at 3).pBin (.lit .number "2")
        { toks := chain_toks [(.add, "3"), (.mul, "4")] ++
            [⟨.delimiter, ";", 1, 10⟩, ⟨.eof, "", 1, 11⟩]
          perror := noError } =
      (some (chain_fold (.lit .number "2") [(.add, "3"), (.mul, "4")]),
        { toks := [⟨.delimiter, ";", 1, 10⟩, ⟨.eof, "", 1, 11⟩], perror := noError }) := by
  exact C1_left_associative_chains.1 [(.add, "3"), (.mul, "4")] 2 (.lit .number "2")
    [⟨.delimiter, ";", 1, 10⟩, ⟨.eof, "", 1, 11⟩] noError (by decide)
    (List.cons_ne_nil _ _) (by intro t ht; cases ht; decide)

/-! ## The expression-statement semicolon check -/

/-- Claim C2 (code bug): `常量 x = 1; x = 2;` does **not** parse — after
`match` consumes the `;`, `parse_statement` re-checks the *next* token for
the value `";"`, so a well-formed expression statement with a single `;` is
rejected with a parse error.  Doubling the final semicolon (`x = 2;;`) makes
the same source parse to the expected AST, and running that AST then fails
with the constant-modification runtime error the spec expects. -/
theorem C2_semicolon_check_bug :
    (parser_parse 16 toks_c2).1 = none ∧
    (parser_parse 16 toks_c2).2.perror.code = ErrCode.parserError ∧
    (parser_parse 16 toks_c2).2.perror.message = "预期';'作为表达式语句的结束" ∧
    (parser_parse 16 toks_c2_doubled).1 = some prog_c2 ∧
    (interpreter_execute 8 prog_c2).1 = false ∧
    (interpreter_execute 8 prog_c2).2.error.code = ErrCode.runtimeError ∧
    (interpreter_execute 8 prog_c2).2.error.message = "不能修改常量: x" := by
  refine ⟨?_, ?_, ?_, ?_, ?_, ?_, ?_⟩ <;> with_unfolding_all rfl

/-! ## Reference counts on the object heap -/

theorem heap_get_cons (a : Nat × Obj) (t : Heap) (k : Nat) :
    heap_get (a :: t) k = if a.1 = k then some a.2 else heap_get t k := by
  simp only [heap_get, List.find?_cons]
  by_cases h : a.1 = k
  · simp [h]
  · simp [h]

theorem heap_get_set_self (h : Heap) (id : Nat) (o o0 : Obj)
    (hg : heap_get h id = some o0) : heap_get (heap_set h id o) id = some o := by
  induction h with
  | nil => simp [heap_get] at hg
  | cons a t ih =>
    rw [heap_get_cons] at hg
    simp only [heap_set, List.map_cons]
    by_cases ha : a.1 = id
    · rw [if_pos ha, heap_get_cons]
      simp
    · rw [if_neg ha]
      rw [if_neg ha] at hg
      rw [heap_get_cons, if_neg ha]
      exact ih hg

theorem heap_get_set_other (h : Heap) (id k : Nat) (o : Obj) (hk : k ≠ id) :
    heap_get (heap_set h id o) k = heap_get h k := by
  induction h with
  | nil => rfl
  | cons a t ih =>
    simp only [heap_set, List.map_cons]
    by_cases ha : a.1 = id
    · rw [if_pos ha, heap_get_cons, heap_get_cons]
      rw [if_neg (fun he : id = k => hk he.symm)]
      rw [if_neg (fun he : a.1 = k => hk ((ha.symm.trans he).symm))]
      exact ih
    · rw [if_neg ha, heap_get_cons, heap_get_cons]
      by_cases hak : a.1 = k
      · rw [if_pos hak, if_pos hak]
      · rw [if_neg hak, if_neg hak]
        exact ih

theorem heap_erase_cons (a : Nat × Obj) (t : Heap) (id : Nat) :
    heap_erase (a :: t) id =
      if a.1 = id then heap_erase t id else a :: heap_erase t id := by
  simp only [heap_erase, List.filter_cons]
  by_cases ha : a.1 = id
  · simp [ha]
  · simp [ha]

theorem heap_get_erase_self (h : Heap) (id : Nat) :
    heap_get (heap_erase h id) id = none := by
  induction h with
  | nil => rfl
  | cons a t ih =>
    rw [heap_erase_cons]
    by_cases ha : a.1 = id
    · rw [if_pos ha]
      exact ih
    · rw [if_neg ha, heap_get_cons, if_neg ha]
      exact ih

theorem heap_get_erase_other (h : Heap) (id k : Nat) (hk : k ≠ id) :
    heap_get (heap_erase h id) k = heap_get h k := by
  induction h with
  | nil => rfl
  | cons a t ih =>
    rw [heap_erase_cons]
    by_cases ha : a.1 = id
    · rw [if_pos ha, ih, heap_get_cons]
      rw [if_neg (fun he : a.1 = k => hk ((ha.symm.trans he).symm))]
    · rw [if_neg ha, heap_get_cons, heap_get_cons]
      by_cases hak : a.1 = k
      · rw [if_pos hak, if_pos hak]
      · rw [if_neg hak, if_neg hak]
        exact ih

/-- `py_list_append` on a live list and a live item: it appends the item's id
to the list's item array, increments the item's reference count by exactly
one, and touches no other object. -/
theorem py_list_append_spec (h : Heap) (listId itemId : Nat) (lo io : Obj)
    (items : List Nat) (hne : itemId ≠ listId)
    (hl : heap_get h listId = some lo) (hpl : lo.payload = .list items)
    (hi : heap_get h itemId = some io) :
    (py_list_append listId itemId h).1 = true ∧
    heap_get (py_list_append listId itemId h).2 itemId =
      some { io with ref_count := io.ref_count + 1 } ∧
    heap_get (py_list_append listId itemId h).2 listId =
      some { lo with payload := .list (items ++ [itemId]) } ∧
    (∀ k, k ≠ listId → k ≠ itemId →
      heap_get (py_list_append listId itemId h).2 k = heap_get h k) := by
  have hset : heap_get (heap_set h listId { lo with payload := .list (items ++ [itemId]) })
      itemId = some io := by
    rw [heap_get_set_other h listId itemId _ hne]; exact hi
  simp only [py_list_append, hl, hpl, py_incref, hset]
  refine ⟨trivial, ?_, ?_, ?_⟩
  · exact heap_get_set_self _ itemId _ io hset
  · rw [heap_get_set_other _ itemId listId _ (fun he => hne he.symm)]
    exact heap_get_set_self h listId _ lo hl
  · intro k hkl hki
    rw [heap_get_set_other _ itemId k _ hki, heap_get_set_other h listId k _ hkl]

/-- `py_decref` on an object whose count is at least 2: the count drops by
exactly one, the object stays allocated, and no other object changes. -/
theorem py_decref_alive (fuel : Nat) (id : Nat) (h : Heap) (o : Obj)
    (hg : heap_get h id = some o) (h2 : 2 ≤ o.ref_count) :
    heap_get (py_decref (fuel + 1) id h) id =
      some { o with ref_count := o.ref_count - 1 } ∧
    (∀ k, k ≠ id → heap_get (py_decref (fuel + 1) id h) k = heap_get h k) := by
  simp only [py_decref, hg]
  rw [if_neg (by omega)]
  exact ⟨heap_get_set_self h id _ o hg, fun k hk => heap_get_set_other h id k _ hk⟩

/-- The destructor's release loop: folding `py_decref` over a duplicate-free
list of ids whose objects all hold at least two references decrements each of
them by exactly one and leaves every other object unchanged. -/
theorem decref_fold (fuel : Nat) :
    ∀ (items : List Nat) (h : Heap),
      items.Nodup →
      (∀ i, i ∈ items → ∃ oi : Obj, heap_get h i = some oi ∧ 2 ≤ oi.ref_count) →
      (∀ i oi, i ∈ items → heap_get h i = some oi →
        heap_get (items.foldl (fun acc j => py_decref (fuel + 1) j acc) h) i =
          some { oi with ref_count := oi.ref_count - 1 }) ∧
      (∀ k, k ∉ items →
        heap_get (items.foldl (fun acc j => py_decref (fuel + 1) j acc) h) k =
          heap_get h k) := by
  intro items
  induction items with
  | nil =>
    intro h _ _
    exact ⟨fun i oi hi => absurd hi (List.not_mem_nil i), fun k _ => rfl⟩
  | cons a t ih =>
    intro h hnd hlive
    obtain ⟨oa, hga, h2a⟩ := hlive a (List.mem_cons_self a t)
    have hstep := py_decref_alive fuel a h oa hga h2a
    have hanot : a ∉ t := (List.nodup_cons.mp hnd).1
    have hnd' : t.Nodup := (List.nodup_cons.mp hnd).2
    have hlive' : ∀ i, i ∈ t →
        ∃ oi : Obj, heap_get (py_decref (fuel + 1) a h) i = some oi ∧ 2 ≤ oi.ref_count := by
      intro i hi
      obtain ⟨oi, hgi, h2i⟩ := hlive i (List.mem_cons_of_mem a hi)
      exact ⟨oi, by rw [hstep.2 i (fun he => hanot (he ▸ hi))]; exact hgi, h2i⟩
    have IH := ih (py_decref (fuel + 1) a h) hnd' hlive'
    simp only [List.foldl_cons]
    constructor
    · intro i oi hi hgio
      rcases List.mem_cons.mp hi with he | ht
      · subst he
        have hoi : oi = oa := by
          rw [hgio] at hga; exact Option.some.inj hga
        rw [IH.2 i hanot, hoi]
        exact hstep.1
      · have hne : i ≠ a := fun he => hanot (he ▸ ht)
        have hg1 : heap_get (py_decref (fuel + 1) a h) i = some oi := by
          rw [hstep.2 i hne]; exact hgio
        exact IH.1 i oi ht hg1
    · intro k hk
      have hkna : k ≠ a := fun he => hk (he ▸ List.mem_cons_self a t)
      have hknt : k ∉ t := fun hkt => hk (List.mem_cons_of_mem a hkt)
      rw [IH.2 k hknt, hstep.2 k hkna]

/-- Releasing the last reference to a list runs `list_destructor`: every
element loses exactly the one reference the list held on it, the list itself
is freed, and nothing else changes. -/
theorem list_destructor_frees (fuel : Nat) (h : Heap) (listId : Nat) (items : List Nat)
    (hl : heap_get h listId = some { ref_count := 1, payload := .list items })
    (hnd : items.Nodup) (hni : listId ∉ items)
    (hlive : ∀ i, i ∈ items → ∃ oi : Obj, heap_get h i = some oi ∧ 2 ≤ oi.ref_count) :
    heap_get (py_decref (fuel + 2) listId h) listId = none ∧
    (∀ i oi, i ∈ items → heap_get h i = some oi →
      heap_get (py_decref (fuel + 2) listId h) i =
        some { oi with ref_count := oi.ref_count - 1 }) ∧
    (∀ k, k ≠ listId → k ∉ items →
      heap_get (py_decref (fuel + 2) listId h) k = heap_get h k) := by
  have hrun : py_decref (fuel + 2) listId h =
      heap_erase
        (items.foldl (fun acc j => py_decref (fuel + 1) j acc)
          (heap_set h listId { ref_count := (1 : Int) - 1, payload := .list items }))
        listId := by
    show py_decref (fuel + 1 + 1) listId h = _
    simp only [py_decref, hl]
    rw [if_pos (by norm_num)]
  have hset : ∀ i, i ∈ items →
      heap_get (heap_set h listId { ref_count := (1 : Int) - 1, payload := .list items }) i =
        heap_get h i := by
    intro i hi
    exact heap_get_set_other h listId i _ (fun he => hni (he ▸ hi))
  have hlive0 : ∀ i, i ∈ items →
      ∃ oi : Obj,
        heap_get (heap_set h listId { ref_count := (1 : Int) - 1, payload := .list items }) i =
          some oi ∧ 2 ≤ oi.ref_count := by
    intro i hi
    obtain ⟨oi, hgi, h2i⟩ := hlive i hi
    exact ⟨oi, by rw [hset i hi]; exact hgi, h2i⟩
  have hfold := decref_fold fuel items
    (heap_set h listId { ref_count := (1 : Int) - 1, payload := .list items }) hnd hlive0
  refine ⟨?_, ?_, ?_⟩
  · rw [hrun]
    exact heap_get_erase_self _ listId
  · intro i oi hi hgio
    rw [hrun, heap_get_erase_other _ listId i (fun he => hni (he ▸ hi))]
    exact hfold.1 i oi hi (by rw [hset i hi]; exact hgio)
  · intro k hkl hki
    rw [hrun, heap_get_erase_other _ listId k hkl, hfold.2 k hki]
    exact heap_get_set_other h listId k _ hkl

/-- Claim C9: list reference counting.  (1) Appending a live value to a live
list increments the value's reference count by exactly one (the list keeps
its count, gains the element, and no other object changes).  (2) Releasing
one reference to an object held at least twice — e.g. the caller's own
reference after an append — leaves it alive with a positive count, exactly
one lower, everything else untouched.  (3) When the list's own count reaches
zero its destructor releases exactly one reference per element and the list
is freed, with every other object unchanged. -/
theorem C9_list_refcounts :
    (∀ (h : Heap) (listId itemId : Nat) (lo io : Obj) (items : List Nat),
        itemId ≠ listId →
        heap_get h listId = some lo → lo.payload = .list items →
        heap_get h itemId = some io →
        (py_list_append listId itemId h).1 = true ∧
        heap_get (py_list_append listId itemId h).2 itemId =
          some { io with ref_count := io.ref_count + 1 } ∧
        heap_get (py_list_append listId itemId h).2 listId =
          some { lo with payload := .list (items ++ [itemId]) } ∧
        (∀ k, k ≠ listId → k ≠ itemId →
          heap_get (py_list_append listId itemId h).2 k = heap_get h k)) ∧
    (∀ (fuel : Nat) (id : Nat) (h : Heap) (o : Obj),
        heap_get h id = some o → 2 ≤ o.ref_count →
        heap_get (py_decref (fuel + 1) id h) id =
          some { o with ref_count := o.ref_count - 1 } ∧
        1 ≤ o.ref_count - 1 ∧
        (∀ k, k ≠ id → heap_get (py_decref (fuel + 1) id h) k = heap_get h k)) ∧
    (∀ (fuel : Nat) (h : Heap) (listId : Nat) (items : List Nat),
        heap_get h listId = some { ref_count := 1, payload := .list items } →
        items.Nodup → listId ∉ items →
        (∀ i, i ∈ items → ∃ oi : Obj, heap_get h i = some oi ∧ 2 ≤ oi.ref_count) →
        heap_get (py_decref (fuel + 2) listId h) listId = none ∧
        (∀ i oi, i ∈ items → heap_get h i = some oi →
          heap_get (py_decref (fuel + 2) listId h) i =
            some { oi with ref_count := oi.ref_count - 1 }) ∧
        (∀ k, k ≠ listId → k ∉ items →
          heap_get (py_decref (fuel + 2) listId h) k = heap_get h k)) := by
  refine ⟨py_list_append_spec, ?_, list_destructor_frees⟩
  intro fuel id h o hg h2
  have ha := py_decref_alive fuel id h o hg h2
  exact ⟨ha.1, by omega, ha.2⟩

/-- Witness for C9 on concrete heaps: appending object 2 to list 1 raises
object 2's count from 1 to 2; releasing the caller's reference leaves it
alive at count 1; releasing the sole reference to the two-element list frees
the list and drops each element from 2 to 1. -/
theorem C9_list_refcounts_witness :
    ((py_list_append 1 2 h_c9).1 = true ∧
      heap_get h_c9_app 2 = some { ref_count := 1 + 1, payload := ObjPayload.num 5 }) ∧
    heap_get (py_decref 3 2 h_c9_app) 2 =
      some { ref_count := 2 - 1, payload := ObjPayload.num 5 } ∧
    (heap_get (py_decref 3 1 h_c9_full) 1 = none ∧
      heap_get (py_decref 3 1 h_c9_full) 2 =
        some { ref_count := 2 - 1, payload := ObjPayload.num 5 } ∧
      heap_get (py_decref 3 1 h_c9_full) 3 =
        some { ref_count := 2 - 1, payload := ObjPayload.num 6 }) := by
  have happ := C9_list_refcounts.1 h_c9 1 2
    { ref_count := 1, payload := .list [] } { ref_count := 1, payload := .num 5 } []
    (by decide) (by with_unfolding_all rfl) rfl (by with_unfolding_all rfl)
  have hrel := C9_list_refcounts.2.1 2 2 h_c9_app
    { ref_count := 2, payload := .num 5 } (by with_unfolding_all rfl) (by decide)
  have hlive : ∀ i, i ∈ [2, 3] →
      ∃ oi : Obj, heap_get h_c9_full i = some oi ∧ 2 ≤ oi.ref_count := by
    intro i hi
    rcases List.mem_cons.mp hi with he | hi2
    · subst he
      exact ⟨{ ref_count := 2, payload := .num 5 }, by with_unfolding_all rfl, by decide⟩
    · rcases List.mem_cons.mp hi2 with he | hi3
      · subst he
        exact ⟨{ ref_count := 2, payload := .num 6 }, by with_unfolding_all rfl, by decide⟩
      · exact absurd hi3 (List.not_mem_nil i)
  have hdes := C9_list_refcounts.2.2 1 h_c9_full 1 [2, 3]
    (by with_unfolding_all rfl) (by decide) (by decide) hlive
  exact ⟨⟨happ.1, happ.2.1⟩, hrel.1,
    hdes.1,
    hdes.2.1 2 { ref_count := 2, payload := .num 5 } (by decide) (by with_unfolding_all rfl),
    hdes.2.1 3 { ref_count := 2, payload := .num 6 } (by decide) (by with_unfolding_all rfl)⟩

end Kunyu
